import Mathlib

/-!
# Verification of the Autonomous-LLM-NPC grid-world core

This file gives a shallow embedding, in Lean 4, of the core subsystems of the
repository (grid geometry, A* pathfinding, the object ledger, the per-agent
inventory, the crafting engine, and the rectangular area index), translated
directly from the Python sources under `src/`, together with theorems settling
the frozen specification claims.

Conventions of the embedding:
* Python `int` is modelled as `Int` (arbitrary precision in both).
* A Python `dict` is modelled as an association list with unique keys
  (`List (κ × β)` plus a `NodupKeys` side condition); assignment updates the
  first matching key or appends, `pop` removes the key, lookups take the
  first match.  This matches CPython dict semantics (insertion order kept,
  keys unique).
* Python `set` is modelled as a `Finset` or a deduplicated list as convenient.
* Methods that mutate `self` are modelled as functions from the state to a
  (result, new state) pair.
* Code that can raise is modelled with `Except`: `Except.error e` is a raised
  exception `e`, `Except.ok` a normal return.
-/

/- ### Association-list model of Python dicts -/

section AssocMap

variable {κ β : Type} [DecidableEq κ]

/-- First-match lookup, `d.get(k)` on a Python dict (keys are unique there). -/
def lookupA : List (κ × β) → κ → Option β
  | [], _ => none
  | (k, v) :: rest, q => if k = q then some v else lookupA rest q

/-- `d[k] = w` on a Python dict: replace the binding if the key is present,
append a new binding otherwise. -/
def setA : List (κ × β) → κ → β → List (κ × β)
  | [], q, w => [(q, w)]
  | (k, v) :: rest, q, w => if k = q then (k, w) :: rest else (k, v) :: setA rest q w

/-- `d.pop(k, None)` on a Python dict: drop the binding of `k`, if any. -/
def eraseA : List (κ × β) → κ → List (κ × β)
  | [], _ => []
  | (k, v) :: rest, q => if k = q then rest else (k, v) :: eraseA rest q

/-- The keys of an association list, in order. -/
def keysA (l : List (κ × β)) : List κ := l.map Prod.fst

/-- A Python dict never holds two bindings for one key. -/
abbrev NodupKeys (l : List (κ × β)) : Prop := (keysA l).Nodup

end AssocMap

/- ### Inventory (`src/agent/inventory.py`) -/

/-- `Inventory`: a mapping from item-type name to integer count
(`items: Dict[str, int]`). -/
structure Inventory where
  items : List (String × Int)
deriving DecidableEq, Repr

/-- `Inventory.count`: `self.items.get(item, 0)`. -/
def Inventory.count (inv : Inventory) (item : String) : Int :=
  (lookupA inv.items item).getD 0

/-- `Inventory.has`: `all(self.count(k) >= v for k, v in req.items())`. -/
def Inventory.has (inv : Inventory) (req : List (String × Int)) : Bool :=
  req.all fun kv => decide (kv.2 ≤ inv.count kv.1)

/-- `Inventory.add`: for each `(k, v)` in `delta`, skip non-positive `v`,
otherwise `self.items[k] = self.count(k) + v`. -/
def Inventory.add (inv : Inventory) (delta : List (String × Int)) : Inventory :=
  ⟨delta.foldl
    (fun items kv =>
      if kv.2 ≤ 0 then items
      else setA items kv.1 ((lookupA items kv.1).getD 0 + kv.2))
    inv.items⟩

/-- The body of the success branch of `Inventory.remove`: for each `(k, v)` in
`req`, compute `newv = count(k) - v`; pop the entry if `newv <= 0`, store
`newv` otherwise. -/
def removeLoop (items : List (String × Int)) (req : List (String × Int)) :
    List (String × Int) :=
  req.foldl
    (fun items kv =>
      let newv := (lookupA items kv.1).getD 0 - kv.2
      if newv ≤ 0 then eraseA items kv.1 else setA items kv.1 newv)
    items

/-- `Inventory.remove`: returns `False` (inventory untouched) unless `has req`;
otherwise applies `removeLoop` and returns `True`. -/
def Inventory.remove (inv : Inventory) (req : List (String × Int)) :
    Bool × Inventory :=
  if inv.has req then (true, ⟨removeLoop inv.items req⟩) else (false, inv)

/-- Quantity requested for `k` by the requirement map (0 when absent). -/
def reqAmt (req : List (String × Int)) (k : String) : Int :=
  (lookupA req k).getD 0

/- ### Recipes and the crafting engine (`src/world/recipe.py`, `src/agent/crafting.py`) -/

/-- `Recipe` (frozen dataclass).  `time_per_unit` is a Python float; it is
modelled as a rational number (the claims only involve dyadic values such as
2.0 and 5.0, on which IEEE-754 double arithmetic, subtraction and comparison
are exact and agree with `ℚ`). -/
structure Recipe where
  name : String
  inputs : List (String × Int)
  outputs : List (String × Int)
  time_per_unit : ℚ
  station : Option String
deriving DecidableEq

/-- `CraftError` enumeration. -/
inductive CraftError where
  | UNKNOWN_RECIPE
  | NOT_KNOWN
  | WRONG_STATION
  | MISSING_INPUTS
  | ALREADY_BUSY
  | INVALID_QTY
deriving DecidableEq, Repr

/-- `CraftTask` dataclass. -/
structure CraftTask where
  recipe : Recipe
  qty_total : Int
  qty_remaining : Int
  time_left_unit : ℚ
deriving DecidableEq

/-- The `Crafter` component.  `registry` models the `RecipeRegistry`
(`_recipes` dict), `known_recipes` the NPC's known-recipe set, `inventory` the
owner's inventory (in the source `self.inventory` of the crafter and
`self.owner.inventory` alias the same object), and `task` the `_task` slot.
`owner.current_area_name`, read by `start`/`update`, is passed explicitly to
each call. -/
structure Crafter where
  registry : List (String × Recipe)
  known_recipes : List String
  inventory : Inventory
  task : Option CraftTask
deriving DecidableEq

/-- `{k: v * qty for k, v in recipe.inputs.items()}`. -/
def scaleReq (req : List (String × Int)) (qty : Int) : List (String × Int) :=
  req.map fun kv => (kv.1, kv.2 * qty)

/-- `recipe.station is not None and owner.current_area_name != recipe.station`:
the station gate shared by `Crafter.start` and `Crafter.update`. -/
def stationMismatch (station : Option String) (ownerArea : Option String) : Bool :=
  match station with
  | some st => decide (ownerArea ≠ some st)
  | none => false

/-- `Crafter.start` (`crafting.py` lines 37-60), producing the `(ok, error)`
part of the returned tuple and the post-state.  The human-readable message in
the third tuple slot is not modelled (no claim mentions it). -/
def Crafter.start (c : Crafter) (ownerArea : Option String) (recipe_name : String)
    (qty : Int) : (Bool × Option CraftError) × Crafter :=
  if c.task.isSome then ((false, some .ALREADY_BUSY), c)
  else if qty ≤ 0 then ((false, some .INVALID_QTY), c)
  else
    match lookupA c.registry recipe_name with
    | none => ((false, some .UNKNOWN_RECIPE), c)
    | some recipe =>
      if recipe_name ∉ c.known_recipes then ((false, some .NOT_KNOWN), c)
      else if stationMismatch recipe.station ownerArea then
        ((false, some .WRONG_STATION), c)
      else
        let total_inputs := scaleReq recipe.inputs qty
        match c.inventory.remove total_inputs with
        | (false, inv') => ((false, some .MISSING_INPUTS), { c with inventory := inv' })
        | (true, inv') =>
          ((true, none),
           { c with inventory := inv',
                    task := some ⟨recipe, qty, qty, recipe.time_per_unit⟩ })

/-- The `while` loop of `Crafter.update` (`crafting.py` lines 71-86).  The
fuel argument is instantiated by the caller with `qty_remaining.toNat`; each
productive iteration decrements `qty_remaining` by one, and when the fuel is 0
we have `qty_remaining ≤ 0`, for which the source loop also exits immediately
with the task unchanged. -/
def craftLoop (recipe : Recipe) (qtyTotal : Int) :
    ℕ → Int → ℚ → ℚ → Inventory → Option CraftTask × Inventory
  | 0, qtyRem, timeLeft, _, inv => (some ⟨recipe, qtyTotal, qtyRem, timeLeft⟩, inv)
  | fuel + 1, qtyRem, timeLeft, remaining, inv =>
    if 0 < remaining ∧ 0 < qtyRem then
      if timeLeft ≤ remaining then
        let inv' := inv.add recipe.outputs
        if qtyRem - 1 = 0 then (none, inv')
        else craftLoop recipe qtyTotal fuel (qtyRem - 1) recipe.time_per_unit
               (remaining - timeLeft) inv'
      else (some ⟨recipe, qtyTotal, qtyRem, timeLeft - remaining⟩, inv)
    else (some ⟨recipe, qtyTotal, qtyRem, timeLeft⟩, inv)

/-- `Crafter.update(dt)`: no-op when idle; silently cancels the task if a
required station's area name no longer matches; otherwise integrates `dt`
through `craftLoop`. -/
def Crafter.update (c : Crafter) (ownerArea : Option String) (dt : ℚ) : Crafter :=
  match c.task with
  | none => c
  | some t =>
    if stationMismatch t.recipe.station ownerArea then { c with task := none }
    else
      let r := craftLoop t.recipe t.qty_total t.qty_remaining.toNat
                 t.qty_remaining t.time_left_unit dt c.inventory
      { c with task := r.1, inventory := r.2 }

/- ### Areas (`src/world/areas/areas.py`, `src/agent/npc_game.py`) -/

/-- A grid cell, a Python `(int, int)` pair. -/
abbrev Cell := Int × Int

/-- Python `range(a, b)` over ints, as a list. -/
def intRange (a b : Int) : List Int :=
  (List.range (b - a).toNat).map fun i => a + i

/-- First-occurrence deduplication with an explicit seen accumulator: the
order in which a Python generator guarded by a `seen` set yields elements. -/
def firstDedup {α : Type} [DecidableEq α] : List α → List α → List α
  | [], _ => []
  | a :: rest, seen =>
    if a ∈ seen then firstDedup rest seen else a :: firstDedup rest (a :: seen)

/-- The Python subclass of an area object (`RectArea` and the three subtypes
declared in `areas_type.py`). -/
inductive AreaClass where
  | rectArea
  | bakeryArea
  | barArea
  | farmArea
deriving DecidableEq, Repr

/-- The class attribute `KIND` of each area class. -/
def AreaClass.KIND : AreaClass → String
  | .rectArea => "area"
  | .bakeryArea => "bakery"
  | .barArea => "bar"
  | .farmArea => "farm"

/-- `type(a).__name__`, the Python class name. -/
def AreaClass.pyName : AreaClass → String
  | .rectArea => "RectArea"
  | .bakeryArea => "BakeryArea"
  | .barArea => "BarArea"
  | .farmArea => "FarmArea"

/-- A `RectArea` instance (drawing-only fields omitted).  `rects` entries are
`(x1, y1, x2, y2)` tuples. -/
structure RectArea where
  id : String
  cls : AreaClass
  rects : List (Int × Int × Int × Int)
  entrances : List Cell
  anchor : Option Cell
deriving DecidableEq, Repr

/-- `self.kind = type(self).KIND` set by `RectArea.__init__`. -/
def RectArea.kind (a : RectArea) : String := a.cls.KIND

/-- `RectArea.contains`: fully inclusive bounds test
`x1 <= x <= x2 and y1 <= y <= y2` over the area's rectangles. -/
def RectArea.contains (a : RectArea) (cell : Cell) : Bool :=
  a.rects.any fun r =>
    match r with
    | (x1, y1, x2, y2) =>
      decide (x1 ≤ cell.1 ∧ cell.1 ≤ x2 ∧ y1 ≤ cell.2 ∧ cell.2 ≤ y2)

/-- The cells one rectangle contributes to `RectArea.perimeter_cells`, in
yield order before deduplication: `for x in range(x1, x2+1): for y in
(y1, y2)` then `for y in range(y1+1, y2): for x in (x1, x2)`. -/
def rectPerimCells (r : Int × Int × Int × Int) : List Cell :=
  match r with
  | (x1, y1, x2, y2) =>
    ((intRange x1 (x2 + 1)).flatMap fun x => [(x, y1), (x, y2)]) ++
    ((intRange (y1 + 1) y2).flatMap fun y => [(x1, y), (x2, y)])

/-- `RectArea.perimeter_cells`: each boundary cell yielded once (`seen` set),
scanning all rectangles. -/
def RectArea.perimeter_cells (a : RectArea) : List Cell :=
  firstDedup (a.rects.flatMap rectPerimCells) []

/-- `RectArea.perimeter_block_cells`: perimeter minus the entrance cells. -/
def RectArea.perimeter_block_cells (a : RectArea) : List Cell :=
  a.perimeter_cells.filter fun c => decide (c ∉ a.entrances)

/-- `AreaManager._index_area`: registers an area's id under every cell of
each of its rectangles, with half-open `range(l, r) × range(b, t)` bounds
(`_rect_bounds` returns 4-tuples unchanged). -/
def indexArea (m : List (Cell × List String)) (a : RectArea) :
    List (Cell × List String) :=
  a.rects.foldl
    (fun m r =>
      match r with
      | (l, b, rr, t) =>
        (intRange l rr).foldl
          (fun m cx =>
            (intRange b t).foldl
              (fun m cy =>
                setA m (cx, cy) ((lookupA m (cx, cy)).getD [] ++ [a.id]))
              m)
          m)
    m

/-- `AreaManager._build_index`: clear, then index every area in insertion
order. -/
def buildIndex (areas : List (String × RectArea)) : List (Cell × List String) :=
  areas.foldl (fun m kv => indexArea m kv.2) []

/-- The `AreaManager` state.  Python `set` objects handed out by
`perimeter_blocked_cells` are modelled with an explicit object store so that
aliasing is observable: `setStore` maps reference numbers to set contents,
`perimCacheRef` is `_perimeter_cache` (`None` or a reference into the store),
and `nextRef` numbers freshly allocated set objects. -/
structure AreaManager where
  areasD : List (String × RectArea)
  cellToAreas : List (Cell × List String)
  perimCacheRef : Option ℕ
  setStore : List (ℕ × List Cell)
  nextRef : ℕ

/-- `AreaManager.__init__(areas)`. -/
def AreaManager.init (areas : List (String × RectArea)) : AreaManager :=
  ⟨areas, buildIndex areas, none, [], 0⟩

/-- `AreaManager.areas_for_cell`: `list(self._cell_to_areas.get(key, []))`. -/
def AreaManager.areas_for_cell (m : AreaManager) (cell : Cell) : List String :=
  (lookupA m.cellToAreas cell).getD []

/-- `AreaManager.area_at`: the last-inserted id at the cell, resolved in the
`_areas` dict; `None` on an empty or missing id list. -/
def AreaManager.area_at (m : AreaManager) (cell : Cell) : Option RectArea :=
  match (lookupA m.cellToAreas cell).getD [] with
  | [] => none
  | ids => ids.getLast?.bind fun i => lookupA m.areasD i

/-- The set built by the cache-miss branch of `perimeter_blocked_cells`:
`out.update(a.perimeter_block_cells())` over all areas.  CPython sets are
unordered; the model keeps first-occurrence order, and claims only compare
contents. -/
def perimeterUnion (areas : List (String × RectArea)) : List Cell :=
  firstDedup (areas.flatMap fun kv => kv.2.perimeter_block_cells) []

/-- `AreaManager.perimeter_blocked_cells`: fill the cache if empty, then
`return set(self._perimeter_cache)` — a freshly allocated copy of the cached
set.  Returns the reference of the new set object and the new state. -/
def AreaManager.perimeter_blocked_cells (m : AreaManager) : ℕ × AreaManager :=
  match m.perimCacheRef with
  | none =>
    let content := perimeterUnion m.areasD
    (m.nextRef + 1,
     { m with
         perimCacheRef := some m.nextRef,
         setStore := setA (setA m.setStore m.nextRef content) (m.nextRef + 1) content,
         nextRef := m.nextRef + 2 })
  | some cacheRef =>
    (m.nextRef,
     { m with
         setStore :=
           setA m.setStore m.nextRef ((lookupA m.setStore cacheRef).getD []),
         nextRef := m.nextRef + 1 })

/-- In-place mutation of a stored set object (what a caller could do to the
returned set). -/
def mutateStoredSet (m : AreaManager) (ref : ℕ) (f : List Cell → List Cell) :
    AreaManager :=
  { m with setStore := setA m.setStore ref (f ((lookupA m.setStore ref).getD [])) }

/-- The contents of the stored set object `r`. -/
def storedContents (m : AreaManager) (r : ℕ) : List Cell :=
  (lookupA m.setStore r).getD []

/-- `NPCAgent.set_current_area_name` (`npc_game.py` lines 205-207):
`type(a).__name__ if a else None` where `a = self.area_mgr.area_at(cell)`. -/
def setCurrentAreaName (m : AreaManager) (cell : Cell) : Option String :=
  (m.area_at cell).map fun a => a.cls.pyName


/- ### Object ledger (`src/world/items.py`, `src/world/items_type.py`) -/

/-- A Python exception raised by ledger code: `AttributeError` from reading
the never-assigned `self.objects` attribute (`__init__` only assigns
`self._objects`), or `ValueError` raised deliberately by `spawn`/`make_item`. -/
inductive PyError where
  | attributeError
  | valueError
deriving DecidableEq, Repr

/-- `WorldObject` (render-only `color` field omitted): ground cell, type
name, object id, and the id of the agent holding it (if any). -/
structure WorldObject where
  cell : Cell
  name : String
  id : String
  held_by : Option String
deriving DecidableEq, Repr

/-- `ObjectManager` state.  `__init__` assigns `_objects` (underscore) but
every method body reads `self.objects` — an attribute that no code ever
assigns on this class; `objectsAttr` models that attribute slot (`none`
meaning "not present", so a read raises `AttributeError`).  `counter` models
the module-global `_id_counter` used by `WorldObject`'s id default factory
(`itertools.count(1)`). -/
structure ObjectManager where
  underscoreObjects : List (String × WorldObject)
  objectsAttr : Option (List (String × WorldObject))
  obj_by_cell : List (Cell × String)
  world_blocked : List Cell
  counter : ℕ
deriving DecidableEq, Repr

/-- `ObjectManager()`: fresh manager (with the id counter at its start value
1). -/
def initialOM : ObjectManager := ⟨[], none, [], [], 1⟩

/-- `str.lower()` on the ASCII item-type strings used by the item registry. -/
def asciiLowerChar (c : Char) : Char :=
  if 'A' ≤ c ∧ c ≤ 'Z' then Char.ofNat (c.toNat + 32) else c

/-- ASCII lower-casing of a string, character by character. -/
def asciiLower (s : String) : String := ⟨s.data.map asciiLowerChar⟩

/-- `make_item(item_type, cell)` (`items_type.py`): looks up
`item_type.lower()` in `ITEM_CLASSES = {"wheat": Wheat, "bread": Bread}` and
constructs the object (its dataclass id default factory draws
`obj_<next(_id_counter)>`); raises `ValueError` for an unknown type.
Returns the object and the advanced counter. -/
def make_item (item_type : String) (cell : Cell) (counter : ℕ) :
    Except PyError (WorldObject × ℕ) :=
  if asciiLower item_type = "wheat" ∨ asciiLower item_type = "bread" then
    .ok (⟨cell, asciiLower item_type, "obj_" ++ toString counter, none⟩, counter + 1)
  else
    .error .valueError

/-- `ObjectManager.can_pick` (read-only): empty/missing id at the cell is
falsy (`if not oid`); with a type filter the code reads `self.objects`,
which raises `AttributeError` whenever an object id is present at the cell. -/
def ObjectManager.can_pick (m : ObjectManager) (cell : Cell)
    (type_filter : Option String) :
    Except PyError (Bool × Option String × Option String) :=
  let oid := (lookupA m.obj_by_cell cell).getD ""
  if oid = "" then .ok (false, some "ERROR_ITEM", none)
  else
    match type_filter with
    | none => .ok (true, none, some oid)
    | some tf =>
      match m.objectsAttr with
      | none => .error .attributeError
      | some objs =>
        match lookupA objs oid with
        | some obj =>
          if obj.name = tf then .ok (true, none, some oid)
          else .ok (false, some "NO_MATCHING_TYPE", none)
        | none => .ok (false, some "NO_MATCHING_TYPE", none)

/-- `ObjectManager.can_drop` (read-only): world geometry first, then ground
occupancy. -/
def ObjectManager.can_drop (m : ObjectManager) (cell : Cell) :
    Bool × Option String :=
  if cell ∈ m.world_blocked then (false, some "BLOQUED_CELL")
  else if (lookupA m.obj_by_cell cell).isSome then (false, some "OCCUPIED_CELL")
  else (true, none)

/-- `ObjectManager.commit_pick`: the first statement reads `self.objects`,
which is never assigned, so the call raises `AttributeError` on every
reachable state (the manager is left unchanged); the intended body is kept
for the hypothetical case where the attribute exists. -/
def ObjectManager.commit_pick (m : ObjectManager) (_agent_id obj_id : String) :
    Except PyError (Bool × Option String × Option String) × ObjectManager :=
  match m.objectsAttr with
  | none => (.error .attributeError, m)
  | some objs =>
    match lookupA objs obj_id with
    | none => (.ok (false, some "OBJ_NOT_FOUND", none), m)
    | some obj =>
      (.ok (true, none, some obj.name),
       { m with
           obj_by_cell := eraseA m.obj_by_cell obj.cell,
           objectsAttr := some (eraseA objs obj_id) })

/-- `ObjectManager.commit_drop`: quantity gate, `can_drop` gate, then
`make_item` (which advances the global id counter) — and then the write
`self.objects[obj_id] = obj`, which raises `AttributeError` **before**
`obj_by_cell` is updated; the made object's dataclass id is always non-empty,
so the `getattr(obj, "id", None) or ...` fallback never evaluates
`len(self.objects)`. -/
def ObjectManager.commit_drop (m : ObjectManager) (_agent_id : String)
    (cell : Cell) (item_type : String) (qty : Int) :
    Except PyError (Bool × Option String × List String) × ObjectManager :=
  if qty ≠ 1 then (.ok (false, some "QTY_GT1_SINGLE_CELL", []), m)
  else
    match m.can_drop cell with
    | (false, reason) => (.ok (false, reason, []), m)
    | (true, _) =>
      match make_item item_type cell m.counter with
      | .error e => (.error e, m)
      | .ok (obj, counter') =>
        match m.objectsAttr with
        | none => (.error .attributeError, { m with counter := counter' })
        | some objs =>
          (.ok (true, none, [obj.id]),
           { m with
               objectsAttr := some (setA objs obj.id obj),
               obj_by_cell := setA m.obj_by_cell cell obj.id,
               counter := counter' })

/-- `ObjectManager.spawn`: raises `ValueError` on an occupied cell or an
unknown item type; on the success path the write `self.objects[obj_id] = obj`
raises `AttributeError` before `obj_by_cell` is updated. -/
def ObjectManager.spawn (m : ObjectManager) (item_type : String) (cell : Cell) :
    Except PyError String × ObjectManager :=
  if (lookupA m.obj_by_cell cell).isSome then (.error .valueError, m)
  else
    match make_item item_type cell m.counter with
    | .error e => (.error e, m)
    | .ok (obj, counter') =>
      match m.objectsAttr with
      | none => (.error .attributeError, { m with counter := counter' })
      | some objs =>
        (.ok obj.id,
         { m with
             objectsAttr := some (setA objs obj.id obj),
             obj_by_cell := setA m.obj_by_cell cell obj.id,
             counter := counter' })

/-- One ledger operation of the sequences quantified over by the
ground-occupancy claim. -/
inductive LedgerOp where
  | spawnOp (item_type : String) (cell : Cell)
  | commitPickOp (agent_id obj_id : String)
  | commitDropOp (agent_id : String) (cell : Cell) (item_type : String) (qty : Int)
deriving DecidableEq, Repr

/-- Apply one operation, keeping the post-state whether or not the operation
raised (a raising operation has already performed its side effects up to the
raise point, exactly as in Python). -/
def applyOp (m : ObjectManager) : LedgerOp → ObjectManager
  | .spawnOp t c => (m.spawn t c).2
  | .commitPickOp a o => (m.commit_pick a o).2
  | .commitDropOp a c t q => (m.commit_drop a c t q).2

/-- Run a sequence of ledger operations from a state. -/
def runOps (m : ObjectManager) (ops : List LedgerOp) : ObjectManager :=
  ops.foldl applyOp m

/-- The ground-occupancy invariant: the cell-to-id map never relates one cell
to two distinct object ids, and a held object (per the `objects` attribute,
when it exists) has no ground-occupancy entry. -/
def groundInv (m : ObjectManager) : Prop :=
  (∀ c oid1 oid2, (c, oid1) ∈ m.obj_by_cell → (c, oid2) ∈ m.obj_by_cell →
    oid1 = oid2) ∧
  (∀ objs, m.objectsAttr = some objs →
    ∀ p ∈ objs, p.2.held_by.isSome →
      ∀ c, lookupA m.obj_by_cell c ≠ some p.1)


/-- Decidable equality for `Except` results (both components decidable). -/
instance {ε α : Type} [DecidableEq ε] [DecidableEq α] :
    DecidableEq (Except ε α)
  | .error a, .error b =>
    match decEq a b with
    | isTrue h => isTrue (by rw [h])
    | isFalse h => isFalse fun hc => h (by cases hc; rfl)
  | .error _, .ok _ => isFalse fun hc => Except.noConfusion hc
  | .ok _, .error _ => isFalse fun hc => Except.noConfusion hc
  | .ok a, .ok b =>
    match decEq a b with
    | isTrue h => isTrue (by rw [h])
    | isFalse h => isFalse fun hc => h (by cases hc; rfl)

/- ### Grid geometry and A* (`src/world/grid.py`, `src/world/pathfinding.py`) -/

/-- `neighbors_4(cell)`: west, east, south, north. -/
def neighbors_4 (c : Cell) : List Cell :=
  [(c.1 - 1, c.2), (c.1 + 1, c.2), (c.1, c.2 - 1), (c.1, c.2 + 1)]

/-- `in_bounds(cell, width_cells, height_cells)`. -/
def in_bounds (c : Cell) (w h : Int) : Bool :=
  decide (0 ≤ c.1 ∧ c.1 < w ∧ 0 ≤ c.2 ∧ c.2 < h)

/-- `manhattan(a, b)` (as a Python `int`). -/
def manhattan (a b : Cell) : Int :=
  ((a.1 - b.1).natAbs : Int) + ((a.2 - b.2).natAbs : Int)

/-- `GridSpec` (frozen dataclass); the blocked-cell `set` is modelled by a
list used only through membership. -/
structure GridSpec where
  width_cells : Int
  height_cells : Int
  blocked : List Cell
deriving DecidableEq, Repr

/-- Lexicographic comparison of heap entries `(f, (x, y))`: Python tuple
comparison, which is the order `heapq` pops by. -/
def entryLE (a b : Int × Cell) : Bool :=
  decide (a.1 < b.1 ∨ (a.1 = b.1 ∧
    (a.2.1 < b.2.1 ∨ (a.2.1 = b.2.1 ∧ a.2.2 ≤ b.2.2))))

/-- `heapq.heappop`: remove and return the least entry under the tuple
order (`none` on an empty heap).  The heap is modelled as the multiset of
its entries; `heappush` is modelled by appending. -/
def popMin : List (Int × Cell) → Option ((Int × Cell) × List (Int × Cell))
  | [] => none
  | e :: rest =>
    match popMin rest with
    | none => some (e, [])
    | some (m, rest') =>
      if entryLE e m then some (e, rest) else some (m, e :: rest')

/-- The body of the `while cur != start` loop of `reconstruct_path`, with
the accumulator building the final (already reversed) cell list.  Python has
no fuel: its loop would raise `KeyError` (modelled `none`) on a missing
parent and diverge on a cyclic parent map; `astar` only calls this on parent
maps where the chain provably reaches `start` within `came_from.length`
steps, so the fuel never runs out there. -/
def reconstructLoop (cf : List (Cell × Cell)) (start : Cell) :
    ℕ → Cell → List Cell → Option (List Cell)
  | 0, cur, acc => if cur = start then some (cur :: acc) else none
  | fuel + 1, cur, acc =>
    if cur = start then some (cur :: acc)
    else
      match lookupA cf cur with
      | none => none
      | some p => reconstructLoop cf start fuel p (cur :: acc)

/-- `reconstruct_path(came_from, start, goal)`. -/
def reconstruct_path (cf : List (Cell × Cell)) (start goal : Cell) :
    List Cell :=
  if (lookupA cf goal).isNone ∧ goal ≠ start then []
  else (reconstructLoop cf start (cf.length + 1) goal []).getD []

/-- The mutable state of the `astar` main loop. -/
structure AState where
  open_heap : List (Int × Cell)
  came_from : List (Cell × Cell)
  g_score : List (Cell × Int)
  closed : List Cell

/-- One neighbor relaxation from the `for nb in neighbors_4(current)` body:
skip out-of-bounds and blocked neighbors; otherwise compare
`tentative = g_score[current] + 1` against `g_score.get(nb, 1_000_000_000)`
and on improvement record the parent, the new g-score and push
`(tentative + manhattan(nb, goal), nb)`.  The state is (heap, came_from,
g_score); `gcur` is `g_score[current]` (always present when called from the
loop). -/
def relaxStep (grid : GridSpec) (goal current : Cell) (gcur : Int)
    (s : List (Int × Cell) × List (Cell × Cell) × List (Cell × Int))
    (nb : Cell) :
    List (Int × Cell) × List (Cell × Cell) × List (Cell × Int) :=
  if ¬ in_bounds nb grid.width_cells grid.height_cells then s
  else if nb ∈ grid.blocked then s
  else if gcur + 1 < (lookupA s.2.2 nb).getD 1000000000 then
    (s.1 ++ [(gcur + 1 + manhattan nb goal, nb)],
     setA s.2.1 nb current,
     setA s.2.2 nb (gcur + 1))
  else s

/-- The `while open_heap` loop of `astar`, with fuel (the caller supplies
enough for the loop to always exit through one of its `return` statements:
each iteration pops one entry, and at most `1 + 4·W·H` entries are ever
pushed because only the first pop of a cell relaxes its neighbors). -/
def astarLoop (grid : GridSpec) (start goal : Cell) :
    ℕ → AState → List Cell
  | 0, _ => []
  | fuel + 1, st =>
    match popMin st.open_heap with
    | none => []
    | some ((_, current), rest) =>
      if current = goal then reconstruct_path st.came_from start goal
      else if current ∈ st.closed then
        astarLoop grid start goal fuel
          { st with open_heap := rest }
      else
        let gcur := (lookupA st.g_score current).getD 0
        let s' := (neighbors_4 current).foldl
          (relaxStep grid goal current gcur)
          (rest, st.came_from, st.g_score)
        astarLoop grid start goal fuel
          ⟨s'.1, s'.2.1, s'.2.2, current :: st.closed⟩

/-- Fuel sufficient for `astarLoop` (an upper bound on the total number of
heap pops; see `astarLoop`). -/
def astarFuel (grid : GridSpec) : ℕ :=
  1 + 5 * (grid.width_cells.toNat * grid.height_cells.toNat)

/-- `astar(start, goal, grid)` (`pathfinding.py` lines 26-70). -/
def astar (start goal : Cell) (grid : GridSpec) : List Cell :=
  if start = goal then [start]
  else if ¬ in_bounds start grid.width_cells grid.height_cells then []
  else if ¬ in_bounds goal grid.width_cells grid.height_cells then []
  else if start ∈ grid.blocked ∨ goal ∈ grid.blocked then []
  else
    astarLoop grid start goal (astarFuel grid)
      ⟨[(0, start)], [], [(start, 0)], []⟩

/- Specification-side predicates for the pathfinding claims. -/

/-- A cell the search may traverse: inside the grid and not blocked. -/
def okCell (grid : GridSpec) (c : Cell) : Prop :=
  in_bounds c grid.width_cells grid.height_cells = true ∧ c ∉ grid.blocked

instance (grid : GridSpec) (c : Cell) : Decidable (okCell grid c) :=
  inferInstanceAs (Decidable
    (in_bounds c grid.width_cells grid.height_cells = true ∧
      c ∉ grid.blocked))

/-- A valid route: starts at `s`, ends at `g`, every cell traversable,
consecutive cells 4-adjacent. -/
def ValidPath (grid : GridSpec) (s g : Cell) (p : List Cell) : Prop :=
  p.head? = some s ∧ p.getLast? = some g ∧ (∀ c ∈ p, okCell grid c) ∧
  List.Chain' (fun a b => b ∈ neighbors_4 a) p

/-- A `Decidable` instance for `List.Chain'` that evaluates by kernel
reduction (the library instance is built with tactics and gets stuck). -/
instance (priority := 2000) decChainPrime {α : Type} {r : α → α → Prop}
    [DecidableRel r] : ∀ l : List α, Decidable (List.Chain' r l)
  | [] => isTrue List.chain'_nil
  | [a] => isTrue (List.chain'_singleton a)
  | a :: b :: t =>
    @decidable_of_iff _ (r a b ∧ List.Chain' r (b :: t))
      List.chain'_cons.symm
      (@instDecidableAnd _ _ inferInstance (decChainPrime (b :: t)))

instance (grid : GridSpec) (s g : Cell) (p : List Cell) :
    Decidable (ValidPath grid s g p) :=
  inferInstanceAs (Decidable
    (p.head? = some s ∧ p.getLast? = some g ∧ (∀ c ∈ p, okCell grid c) ∧
      List.Chain' (fun a b => b ∈ neighbors_4 a) p))

/-- `v` is the minimum number of steps of a valid route from `s` to `c`
(`v + 1` cells): some route realizes it and no route is shorter. -/
def IsDist (grid : GridSpec) (s c : Cell) (v : Int) : Prop :=
  (∃ p, ValidPath grid s c p ∧ (p.length : Int) = v + 1) ∧
  (∀ q, ValidPath grid s c q → v + 1 ≤ (q.length : Int))


/-- The loop invariant of `astarLoop` (for a search from `s` to `g` on
`grid`), the backbone of the optimality proof.  `g_score` entries are
realizable path lengths and only exist for traversable cells; `came_from`
entries point one 4-step back to an already-settled parent with a g-score
exactly one smaller; settled (`closed`) cells carry the true shortest
distance and have relaxed all their neighbors; every heap entry's cell has a
g-score, with `f ≥ g + h` except for the initial `(0, start)` entry; every
scored, unsettled cell keeps a heap entry with `f ≤ g + h`; the goal is
never settled (popping it returns first). -/
structure AInv (grid : GridSpec) (s g : Cell) (st : AState) : Prop where
  g_ok : ∀ c v, lookupA st.g_score c = some v → okCell grid c
  g_path : ∀ c v, lookupA st.g_score c = some v →
    ∃ p, ValidPath grid s c p ∧ (p.length : Int) = v + 1
  g_start : lookupA st.g_score s = some 0
  g_bound : ∀ c v, lookupA st.g_score c = some v → v < 1000000000
  cf_parent : ∀ c pr, lookupA st.came_from c = some pr →
    c ≠ s ∧ c ∈ neighbors_4 pr ∧ pr ∈ st.closed ∧
    ∃ vc vp, lookupA st.g_score c = some vc ∧
      lookupA st.g_score pr = some vp ∧ vc = vp + 1
  cf_cover : ∀ c v, lookupA st.g_score c = some v → c ≠ s →
    (lookupA st.came_from c).isSome = true
  closed_nodup : st.closed.Nodup
  closed_dist : ∀ c ∈ st.closed, ∃ v, lookupA st.g_score c = some v ∧
    IsDist grid s c v
  closed_relaxed : ∀ c ∈ st.closed, ∀ nb, nb ∈ neighbors_4 c →
    okCell grid nb → ∀ vc, lookupA st.g_score c = some vc →
    vc + 1 < 1000000000 →
    ∃ vn, lookupA st.g_score nb = some vn ∧ vn ≤ vc + 1
  heap_g : ∀ e ∈ st.open_heap, ∃ v, lookupA st.g_score e.2 = some v ∧
    (e.2 = s ∨ v + manhattan e.2 g ≤ e.1)
  fresh : ∀ c, (lookupA st.g_score c).isSome = true → c ∉ st.closed →
    ∃ fv v, (fv, c) ∈ st.open_heap ∧ lookupA st.g_score c = some v ∧
      fv ≤ v + manhattan c g
  goal_not_closed : g ∉ st.closed

/-- Termination measure of the `astar` main loop: every iteration pops one
entry, a skipped pop shrinks the heap, and an expansion trades at most four
pushes against settling one more in-bounds cell. -/
def phiMeasure (grid : GridSpec) (st : AState) : ℕ :=
  st.open_heap.length +
    5 * (grid.width_cells.toNat * grid.height_cells.toNat - st.closed.length)


/-!
## Theorems

Everything below this point is proof: lemmas about the association-list dict
model, followed by the theorems settling the specification claims.
-/

section AssocMapLemmas

variable {κ β : Type} [DecidableEq κ]

theorem lookupA_setA (l : List (κ × β)) (q : κ) (w : β) (k : κ) :
    lookupA (setA l q w) k = if k = q then some w else lookupA l k := by
  induction l with
  | nil =>
    by_cases h : k = q
    · simp [setA, lookupA, h]
    · have : ¬ (q = k) := fun h' => h h'.symm
      simp [setA, lookupA, h, this]
  | cons kv rest ih =>
    obtain ⟨k', v'⟩ := kv
    by_cases h1 : k' = q
    · subst h1
      by_cases h2 : k' = k
      · subst h2; simp [setA, lookupA]
      · have : ¬ (k = k') := fun h' => h2 h'.symm
        simp [setA, lookupA, h2, this]
    · by_cases h2 : k' = k
      · subst h2
        simp [setA, lookupA, h1]
      · simp [setA, lookupA, h1, h2, ih]

theorem lookupA_eraseA_ne (l : List (κ × β)) (q k : κ) (hk : k ≠ q) :
    lookupA (eraseA l q) k = lookupA l k := by
  induction l with
  | nil => simp [eraseA]
  | cons kv rest ih =>
    obtain ⟨k', v'⟩ := kv
    by_cases h1 : k' = q
    · subst h1
      have : ¬ (k' = k) := fun h' => hk h'.symm
      simp [eraseA, lookupA, this]
    · by_cases h2 : k' = k
      · subst h2; simp [eraseA, lookupA, h1, hk]
      · simp [eraseA, lookupA, h1, h2, ih]

theorem lookupA_eq_none_of_not_mem_keys (l : List (κ × β)) (q : κ)
    (hq : q ∉ keysA l) : lookupA l q = none := by
  induction l with
  | nil => simp [lookupA]
  | cons kv rest ih =>
    obtain ⟨k', v'⟩ := kv
    simp only [keysA, List.map_cons, List.mem_cons] at hq
    push_neg at hq
    have : ¬ (k' = q) := fun h' => hq.1 h'.symm
    simp [lookupA, this, ih (by simpa [keysA] using hq.2)]

theorem lookupA_eraseA_self (l : List (κ × β)) (q : κ) (h : NodupKeys l) :
    lookupA (eraseA l q) q = none := by
  induction l with
  | nil => simp [eraseA, lookupA]
  | cons kv rest ih =>
    obtain ⟨k', v'⟩ := kv
    have hpair := List.nodup_cons.mp h
    have h' : NodupKeys rest := hpair.2
    by_cases h1 : k' = q
    · subst h1
      simp only [eraseA, if_pos rfl]
      exact lookupA_eq_none_of_not_mem_keys rest k' hpair.1
    · simp [eraseA, lookupA, h1, ih h']

theorem keysA_setA (l : List (κ × β)) (q : κ) (w : β) :
    keysA (setA l q w) = if q ∈ keysA l then keysA l else keysA l ++ [q] := by
  induction l with
  | nil => simp [setA, keysA]
  | cons kv rest ih =>
    obtain ⟨k', v'⟩ := kv
    by_cases h1 : k' = q
    · subst h1; simp [setA, keysA]
    · have hq : ¬ (q = k') := fun h' => h1 h'.symm
      simp only [setA, if_neg h1, keysA, List.map_cons] at ih ⊢
      rw [ih]
      by_cases h2 : q ∈ List.map Prod.fst rest
      · rw [if_pos h2, if_pos (by simp [List.mem_cons, h2])]
      · rw [if_neg h2, if_neg (by simp [List.mem_cons, hq, h2]), List.cons_append]

theorem nodupKeys_setA (l : List (κ × β)) (q : κ) (w : β) (h : NodupKeys l) :
    NodupKeys (setA l q w) := by
  unfold NodupKeys
  rw [keysA_setA]
  by_cases hq : q ∈ keysA l
  · simpa [hq] using h
  · simp only [hq, if_false]
    exact List.Nodup.append h (List.nodup_singleton q) (by
      intro a ha hb
      simp only [List.mem_singleton] at hb
      exact hq (hb ▸ ha))

theorem keysA_eraseA_sublist (l : List (κ × β)) (q : κ) :
    (keysA (eraseA l q)).Sublist (keysA l) := by
  induction l with
  | nil => simp [eraseA]
  | cons kv rest ih =>
    obtain ⟨k', v'⟩ := kv
    by_cases h1 : k' = q
    · subst h1
      simp only [eraseA, if_pos rfl, keysA, List.map_cons]
      exact List.sublist_cons_self _ _
    · simp only [eraseA, if_neg h1, keysA, List.map_cons]
      exact List.Sublist.cons₂ k' ih

theorem nodupKeys_eraseA (l : List (κ × β)) (q : κ) (h : NodupKeys l) :
    NodupKeys (eraseA l q) :=
  List.Nodup.sublist (keysA_eraseA_sublist l q) h

theorem lookupA_setA_self (l : List (κ × β)) (q : κ) (w : β) :
    lookupA (setA l q w) q = some w := by
  rw [lookupA_setA, if_pos rfl]

theorem lookupA_setA_of_ne (l : List (κ × β)) (q : κ) (w : β) (k : κ)
    (h : k ≠ q) : lookupA (setA l q w) k = lookupA l k := by
  rw [lookupA_setA, if_neg h]

end AssocMapLemmas

theorem removeLoop_lookup (req : List (String × Int)) :
    ∀ (items : List (String × Int)) (k : String),
      NodupKeys items → NodupKeys req →
      (∀ kv ∈ req, kv.2 ≤ (lookupA items kv.1).getD 0) →
      lookupA (removeLoop items req) k =
        if k ∈ keysA req then
          (if (lookupA items k).getD 0 - reqAmt req k = 0 then none
           else some ((lookupA items k).getD 0 - reqAmt req k))
        else lookupA items k := by
  induction req with
  | nil =>
    intro items k _ _ _
    simp [removeLoop, keysA]
  | cons qv rest ih =>
    intro items k hitems hreq hsat
    obtain ⟨q, v⟩ := qv
    have h0 : keysA ((q, v) :: rest) = q :: keysA rest := by simp [keysA]
    have hkeys : (q :: keysA rest).Nodup := h0 ▸ hreq
    have hq_not : q ∉ keysA rest := (List.nodup_cons.mp hkeys).1
    have hrest : NodupKeys rest := (List.nodup_cons.mp hkeys).2
    have hsat_q : v ≤ (lookupA items q).getD 0 :=
      hsat (q, v) (List.mem_cons_self _ _)
    have hstep : removeLoop items ((q, v) :: rest) =
        removeLoop
          (if (lookupA items q).getD 0 - v ≤ 0 then eraseA items q
           else setA items q ((lookupA items q).getD 0 - v)) rest := by
      simp [removeLoop]
    set newv : Int := (lookupA items q).getD 0 - v with hnewv
    set items' : List (String × Int) :=
      if newv ≤ 0 then eraseA items q else setA items q newv with hitemsDef
    have hitems' : NodupKeys items' := by
      rw [hitemsDef]
      split
      · exact nodupKeys_eraseA items q hitems
      · exact nodupKeys_setA items q newv hitems
    have hlook_ne : ∀ k', k' ≠ q → lookupA items' k' = lookupA items k' := by
      intro k' hne
      rw [hitemsDef]
      split
      · exact lookupA_eraseA_ne items q k' hne
      · rw [lookupA_setA, if_neg hne]
    have hsat' : ∀ kv ∈ rest, kv.2 ≤ (lookupA items' kv.1).getD 0 := by
      intro kv hkv
      have hne : kv.1 ≠ q := by
        intro h
        exact hq_not (h ▸ List.mem_map_of_mem Prod.fst hkv)
      rw [hlook_ne _ hne]
      exact hsat kv (List.mem_cons_of_mem _ hkv)
    rw [hstep, ih items' k hitems' hrest hsat']
    by_cases hk : k = q
    · subst hk
      have hmem : k ∈ keysA ((k, v) :: rest) := by simp [keysA]
      have hamt : reqAmt ((k, v) :: rest) k = v := by simp [reqAmt, lookupA]
      rw [if_neg hq_not, if_pos hmem, hamt]
      by_cases hz : newv ≤ 0
      · have hz0 : newv = 0 := le_antisymm hz (by omega)
        have : items' = eraseA items k := by rw [hitemsDef, if_pos hz]
        rw [this, lookupA_eraseA_self items k hitems]
        rw [if_pos (by omega)]
      · have : items' = setA items k newv := by rw [hitemsDef, if_neg hz]
        rw [this, lookupA_setA, if_pos rfl]
        rw [if_neg (by omega)]
    · have hamt : reqAmt ((q, v) :: rest) k = reqAmt rest k := by
        have : ¬ (q = k) := fun h' => hk h'.symm
        simp [reqAmt, lookupA, this]
      have hmem : (k ∈ keysA ((q, v) :: rest)) ↔ (k ∈ keysA rest) := by
        simp [keysA, List.mem_cons]
        intro h'
        exact absurd h' hk
      rw [hlook_ne _ hk, hamt]
      by_cases hr : k ∈ keysA rest
      · rw [if_pos hr, if_pos (hmem.mpr hr)]
      · rw [if_neg hr, if_neg (fun h' => hr (hmem.mp h'))]

/-- C7: `Inventory.remove` is all-or-nothing.  If any requested item's held
count is below the requested quantity (`has` fails) the call returns `False`
and the inventory is exactly unchanged.  If all requirements are satisfiable
it returns `True`, decrements every requested item by the requested quantity,
and drops any entry whose count reaches zero (other entries keep their
bindings). -/
theorem inventory_remove_all_or_nothing (inv : Inventory)
    (req : List (String × Int)) (k : String)
    (hinv : NodupKeys inv.items) (hreq : NodupKeys req) :
    (inv.has req = false → inv.remove req = (false, inv)) ∧
    (inv.has req = true →
      (inv.remove req).1 = true ∧
      (inv.remove req).2.count k = inv.count k - reqAmt req k ∧
      lookupA (inv.remove req).2.items k =
        (if k ∈ keysA req then
          (if inv.count k - reqAmt req k = 0 then none
           else some (inv.count k - reqAmt req k))
         else lookupA inv.items k)) := by
  constructor
  · intro h
    simp [Inventory.remove, h]
  · intro h
    have hsat : ∀ kv ∈ req, kv.2 ≤ (lookupA inv.items kv.1).getD 0 := by
      intro kv hkv
      have := (List.all_eq_true.mp h) kv hkv
      simpa [Inventory.count] using of_decide_eq_true this
    have hres : inv.remove req = (true, ⟨removeLoop inv.items req⟩) := by
      simp [Inventory.remove, h]
    have hlook := removeLoop_lookup req inv.items k hinv hreq hsat
    refine ⟨by rw [hres], ?_, ?_⟩
    · rw [hres]
      simp only [Inventory.count]
      rw [hlook]
      by_cases hmem : k ∈ keysA req
      · rw [if_pos hmem]
        by_cases hz : (lookupA inv.items k).getD 0 - reqAmt req k = 0
        · rw [if_pos hz]; simp [hz]
        · rw [if_neg hz]; rfl
      · rw [if_neg hmem]
        have : reqAmt req k = 0 := by
          simp [reqAmt, lookupA_eq_none_of_not_mem_keys req k hmem]
        rw [this]
        ring
    · rw [hres]
      simp only [Inventory.count] at hlook ⊢
      exact hlook

/-- Witness for C7 at a concrete inventory and requirement: removing
`{wheat: 3}` from `{wheat: 3, stone: 2}` succeeds, leaves `wheat` count 0 and
prunes the `wheat` entry. -/
theorem inventory_remove_all_or_nothing_witness :
    NodupKeys (Inventory.mk [("wheat", 3), ("stone", 2)]).items ∧
    NodupKeys [("wheat", (3 : Int))] ∧
    (((Inventory.mk [("wheat", 3), ("stone", 2)]).has [("wheat", 3)] = false →
        (Inventory.mk [("wheat", 3), ("stone", 2)]).remove [("wheat", 3)] =
          (false, Inventory.mk [("wheat", 3), ("stone", 2)])) ∧
      ((Inventory.mk [("wheat", 3), ("stone", 2)]).has [("wheat", 3)] = true →
        ((Inventory.mk [("wheat", 3), ("stone", 2)]).remove [("wheat", 3)]).1 = true ∧
        ((Inventory.mk [("wheat", 3), ("stone", 2)]).remove [("wheat", 3)]).2.count "wheat" =
          (Inventory.mk [("wheat", 3), ("stone", 2)]).count "wheat" -
            reqAmt [("wheat", 3)] "wheat" ∧
        lookupA ((Inventory.mk [("wheat", 3), ("stone", 2)]).remove
            [("wheat", 3)]).2.items "wheat" =
          (if "wheat" ∈ keysA [("wheat", (3 : Int))] then
            (if (Inventory.mk [("wheat", 3), ("stone", 2)]).count "wheat" -
                reqAmt [("wheat", 3)] "wheat" = 0 then none
             else some ((Inventory.mk [("wheat", 3), ("stone", 2)]).count "wheat" -
                reqAmt [("wheat", 3)] "wheat"))
           else lookupA (Inventory.mk [("wheat", 3), ("stone", 2)]).items "wheat"))) :=
  ⟨by decide, by decide,
    inventory_remove_all_or_nothing (Inventory.mk [("wheat", 3), ("stone", 2)])
      [("wheat", 3)] "wheat" (by decide) (by decide)⟩

theorem remove_true_count (inv : Inventory) (req : List (String × Int)) (k : String)
    (hinv : NodupKeys inv.items) (hreq : NodupKeys req)
    (h : inv.has req = true) :
    ((inv.remove req).2).count k = inv.count k - reqAmt req k := by
  have hsat : ∀ kv ∈ req, kv.2 ≤ (lookupA inv.items kv.1).getD 0 := by
    intro kv hkv
    have := (List.all_eq_true.mp h) kv hkv
    simpa [Inventory.count] using of_decide_eq_true this
  have hres : inv.remove req = (true, ⟨removeLoop inv.items req⟩) := by
    simp [Inventory.remove, h]
  rw [hres]
  simp only [Inventory.count]
  rw [removeLoop_lookup req inv.items k hinv hreq hsat]
  by_cases hmem : k ∈ keysA req
  · rw [if_pos hmem]
    by_cases hz : (lookupA inv.items k).getD 0 - reqAmt req k = 0
    · rw [if_pos hz]; simp [hz]
    · rw [if_neg hz]; rfl
  · rw [if_neg hmem]
    have : reqAmt req k = 0 := by
      simp [reqAmt, lookupA_eq_none_of_not_mem_keys req k hmem]
    rw [this]
    ring

theorem lookupA_scaleReq (req : List (String × Int)) (qty : Int) (k : String) :
    lookupA (scaleReq req qty) k = (lookupA req k).map (fun v => v * qty) := by
  induction req with
  | nil => simp [scaleReq, lookupA]
  | cons kv rest ih =>
    obtain ⟨q, v⟩ := kv
    by_cases h : q = k
    · simp [scaleReq, lookupA, h]
    · simp only [scaleReq, List.map_cons, lookupA, if_neg h]
      simpa [scaleReq] using ih

theorem reqAmt_scaleReq (req : List (String × Int)) (qty : Int) (k : String) :
    reqAmt (scaleReq req qty) k = reqAmt req k * qty := by
  unfold reqAmt
  rw [lookupA_scaleReq]
  cases lookupA req k <;> simp

theorem keysA_scaleReq (req : List (String × Int)) (qty : Int) :
    keysA (scaleReq req qty) = keysA req := by
  unfold keysA scaleReq
  rw [List.map_map]
  rfl



/-- C5: `Crafter.start` is atomic.  Every failing start — busy, non-positive
quantity, recipe missing from the registry (`UNKNOWN_RECIPE`), recipe unknown
to the agent, wrong station, insufficient inputs — leaves the crafter (in
particular its inventory and task slot) exactly unchanged; a registry miss in
particular always fails; and when the registry resolves the name, a start
succeeds exactly when all preconditions hold, and then it immediately deducts
the full input cost `inputs[k] * qty` for every item and installs the task. -/
theorem crafter_start_atomic
    (c : Crafter) (area : Option String) (name : String) (qty : Int)
    (k : String)
    (hinv : NodupKeys c.inventory.items)
    (hins : ∀ r, lookupA c.registry name = some r → NodupKeys r.inputs) :
    ((c.start area name qty).1.1 = false → (c.start area name qty).2 = c) ∧
    (lookupA c.registry name = none → (c.start area name qty).1.1 = false) ∧
    (∀ r, lookupA c.registry name = some r →
      (((c.start area name qty).1.1 = true ↔
        (c.task = none ∧ 0 < qty ∧ name ∈ c.known_recipes ∧
         stationMismatch r.station area = false ∧
         c.inventory.has (scaleReq r.inputs qty) = true)) ∧
       ((c.start area name qty).1.1 = true →
        ((c.start area name qty).2.task = some ⟨r, qty, qty, r.time_per_unit⟩ ∧
         (c.start area name qty).2.inventory.count k =
           c.inventory.count k - reqAmt r.inputs k * qty)))) := by
  cases hreg : lookupA c.registry name with
  | none =>
    have hs : (c.start area name qty).1.1 = false ∧
        (c.start area name qty).2 = c := by
      by_cases h1 : c.task.isSome
      · constructor <;> simp [Crafter.start, h1]
      · by_cases h2 : qty ≤ 0
        · constructor <;> simp [Crafter.start, h1, h2]
        · constructor <;> simp [Crafter.start, h1, h2, hreg]
    refine ⟨fun _ => hs.2, fun _ => hs.1, ?_⟩
    intro r hr
    exact Option.noConfusion hr
  | some r0 =>
    have hin : NodupKeys r0.inputs := hins r0 hreg
    have hold :
        ((c.start area name qty).1.1 = false → (c.start area name qty).2 = c) ∧
        ((c.start area name qty).1.1 = true ↔
          (c.task = none ∧ 0 < qty ∧ name ∈ c.known_recipes ∧
           stationMismatch r0.station area = false ∧
           c.inventory.has (scaleReq r0.inputs qty) = true)) ∧
        ((c.start area name qty).1.1 = true →
          ((c.start area name qty).2.task =
            some ⟨r0, qty, qty, r0.time_per_unit⟩ ∧
           (c.start area name qty).2.inventory.count k =
             c.inventory.count k - reqAmt r0.inputs k * qty)) := by
      by_cases h1 : c.task.isSome
      · have hne : c.task ≠ none := Option.isSome_iff_ne_none.mp h1
        have hs : c.start area name qty = ((false, some .ALREADY_BUSY), c) := by
          simp [Crafter.start, h1]
        rw [hs]
        exact ⟨fun _ => rfl, by simp [hne], fun h => by simp at h⟩
      · have h1' : c.task = none := Option.not_isSome_iff_eq_none.mp h1
        by_cases h2 : qty ≤ 0
        · have hs : c.start area name qty = ((false, some .INVALID_QTY), c) := by
            simp [Crafter.start, h1, h2]
          rw [hs]
          refine ⟨fun _ => rfl, by simp; intro _ h; omega, fun h => by simp at h⟩
        · by_cases h3 : name ∈ c.known_recipes
          · by_cases h4 : stationMismatch r0.station area = true
            · have hs : c.start area name qty =
                  ((false, some .WRONG_STATION), c) := by
                simp [Crafter.start, hreg, h1, h2, h3, h4]
              rw [hs]
              exact ⟨fun _ => rfl, by simp [h4], fun h => by simp at h⟩
            · have h4' : stationMismatch r0.station area = false :=
                Bool.eq_false_iff.mpr h4
              by_cases h5 : c.inventory.has (scaleReq r0.inputs qty) = true
              · have hrem : c.inventory.remove (scaleReq r0.inputs qty) =
                    (true,
                     ⟨removeLoop c.inventory.items (scaleReq r0.inputs qty)⟩) := by
                  simp [Inventory.remove, h5]
                have hs : c.start area name qty =
                    ((true, none),
                     { c with
                         inventory :=
                           ⟨removeLoop c.inventory.items
                             (scaleReq r0.inputs qty)⟩,
                         task := some ⟨r0, qty, qty, r0.time_per_unit⟩ }) := by
                  simp [Crafter.start, hreg, h1, h2, h3, h4, hrem]
                rw [hs]
                refine ⟨fun h => by simp at h, by simp [h1', h3, h4', h5]; omega,
                  fun _ => ⟨rfl, ?_⟩⟩
                have := remove_true_count c.inventory (scaleReq r0.inputs qty)
                  k hinv (by rw [NodupKeys, keysA_scaleReq]; exact hin) h5
                rw [hrem] at this
                simpa [reqAmt_scaleReq] using this
              · have h5' : c.inventory.has (scaleReq r0.inputs qty) = false :=
                  Bool.eq_false_iff.mpr h5
                have hrem : c.inventory.remove (scaleReq r0.inputs qty) =
                    (false, c.inventory) := by
                  simp [Inventory.remove, h5']
                have hs : c.start area name qty =
                    ((false, some .MISSING_INPUTS), c) := by
                  simp [Crafter.start, hreg, h1, h2, h3, h4, hrem]
                rw [hs]
                exact ⟨fun _ => rfl, by simp [h5'], fun h => by simp at h⟩
          · have hs : c.start area name qty = ((false, some .NOT_KNOWN), c) := by
              simp [Crafter.start, hreg, h1, h2, h3]
            rw [hs]
            exact ⟨fun _ => rfl, by simp [h3], fun h => by simp at h⟩
    refine ⟨hold.1, ?_, ?_⟩
    · intro h
      exact Option.noConfusion h
    · intro r hr
      have heq : r0 = r := Option.some.inj hr
      rcases heq with rfl
      exact ⟨hold.2.1, hold.2.2⟩

/-- Witness for C5: a crafter holding `{wheat: 5}`, with a bread recipe
needing `{wheat: 2}` per unit, started at `qty = 2`: succeeds and deducts 4
wheat; the registry-miss conjunct is carried vacuously (the lookup hits). -/
theorem crafter_start_atomic_witness :
    NodupKeys (Crafter.mk
        [("bread", Recipe.mk "bread" [("wheat", 2)] [("bread", 1)] 2 none)]
        ["bread"] (Inventory.mk [("wheat", 5)]) none).inventory.items ∧
    (∀ r, lookupA (Crafter.mk
        [("bread", Recipe.mk "bread" [("wheat", 2)] [("bread", 1)] 2 none)]
        ["bread"] (Inventory.mk [("wheat", 5)]) none).registry "bread" =
          some r → NodupKeys r.inputs) ∧
    (let c := Crafter.mk
        [("bread", Recipe.mk "bread" [("wheat", 2)] [("bread", 1)] 2 none)]
        ["bread"] (Inventory.mk [("wheat", 5)]) none
     ((c.start none "bread" 2).1.1 = false → (c.start none "bread" 2).2 = c) ∧
     (lookupA c.registry "bread" = none →
       (c.start none "bread" 2).1.1 = false) ∧
     (∀ r, lookupA c.registry "bread" = some r →
       (((c.start none "bread" 2).1.1 = true ↔
         (c.task = none ∧ (0 : Int) < 2 ∧ "bread" ∈ c.known_recipes ∧
          stationMismatch r.station none = false ∧
          c.inventory.has (scaleReq r.inputs 2) = true)) ∧
        ((c.start none "bread" 2).1.1 = true →
         ((c.start none "bread" 2).2.task =
            some ⟨r, 2, 2, r.time_per_unit⟩ ∧
          (c.start none "bread" 2).2.inventory.count "wheat" =
            c.inventory.count "wheat" - reqAmt r.inputs "wheat" * 2))))) :=
  ⟨by decide,
   by
    intro r hr
    have h2 : some (Recipe.mk "bread" [("wheat", 2)] [("bread", 1)] 2 none) =
        some r := hr
    cases h2
    decide,
   crafter_start_atomic
      (Crafter.mk
        [("bread", Recipe.mk "bread" [("wheat", 2)] [("bread", 1)] 2 none)]
        ["bread"] (Inventory.mk [("wheat", 5)]) none)
      none "bread" 2 "wheat" (by decide)
      (by
        intro r hr
        have h2 : some (Recipe.mk "bread" [("wheat", 2)] [("bread", 1)] 2
            none) = some r := hr
        cases h2
        decide)⟩

theorem craftLoop_qty_pos (recipe : Recipe) (qtyTotal : Int) (fuel : ℕ) :
    ∀ (qtyRem : Int) (timeLeft remaining : ℚ) (inv : Inventory),
      0 < qtyRem →
      ((craftLoop recipe qtyTotal fuel qtyRem timeLeft remaining inv).1.all
        fun t' => decide (0 < t'.qty_remaining)) = true := by
  induction fuel with
  | zero =>
    intro qtyRem tl rem inv h0
    simp [craftLoop, Option.all, h0]
  | succ fuel ih =>
    intro qtyRem tl rem inv h0
    simp only [craftLoop]
    split
    · split
      · split
        · simp [Option.all]
        · exact ih _ _ _ _ (by omega)
      · simp [Option.all, h0]
    · simp [Option.all, h0]

/-- C6: `Crafter.update(dt)` consumes leftover `dt` across several unit
completions in a single call.  First conjunct: an active task is never left
with `qty_remaining` at zero — whenever the count reaches zero the task slot
becomes Idle (`none`).  Second conjunct, the spec's tick scenario: for a task
of 3 units at 2.0 s each, a single `update(5.0)` adds the recipe outputs to
the inventory exactly twice and leaves the task with `qty_remaining = 1` and
1.0 s on the third unit's timer. -/
theorem crafter_update_consumes_leftover_dt
    (c : Crafter) (t : CraftTask) (r : Recipe) (area : Option String) (dt : ℚ)
    (hc : c.task = some t) :
    (0 < t.qty_remaining →
      ((c.update area dt).task.all fun t' => decide (0 < t'.qty_remaining)) = true) ∧
    (t = ⟨r, 3, 3, 2⟩ → r.time_per_unit = 2 → r.station = none →
      ((c.update area 5).task = some ⟨r, 3, 1, 1⟩ ∧
       (c.update area 5).inventory = (c.inventory.add r.outputs).add r.outputs)) := by
  constructor
  · intro h0
    unfold Crafter.update
    rw [hc]
    by_cases hm : stationMismatch t.recipe.station area = true
    · simp [hm, Option.all]
    · simp only [Bool.not_eq_true] at hm
      simp only [hm, Bool.false_eq_true, if_false]
      exact craftLoop_qty_pos _ _ _ _ _ _ _ h0
  · intro ht htpu hst
    subst ht
    unfold Crafter.update
    rw [hc]
    simp only [stationMismatch, hst, Bool.false_eq_true, if_false]
    have hfuel : ((3 : Int)).toNat = 2 + 1 := rfl
    rw [hfuel]
    rw [craftLoop]
    norm_num
    rw [htpu]
    have h2 : (2 : ℕ) = 1 + 1 := rfl
    rw [h2, craftLoop]
    norm_num
    rw [htpu]
    have h1 : (1 : ℕ) = 0 + 1 := rfl
    rw [h1, craftLoop]
    norm_num

/-- Witness for C6 at a concrete crafter: bread recipe, 2.0 s per unit, task
of 3 units, `update(5.0)`. -/
theorem crafter_update_consumes_leftover_dt_witness :
    (Crafter.mk [] [] (Inventory.mk [])
        (some (CraftTask.mk
          (Recipe.mk "bread" [("wheat", 2)] [("bread", 1)] 2 none) 3 3 2))).task =
      some (CraftTask.mk
        (Recipe.mk "bread" [("wheat", 2)] [("bread", 1)] 2 none) 3 3 2) ∧
    (let r := Recipe.mk "bread" [("wheat", 2)] [("bread", 1)] 2 none
     let t := CraftTask.mk r 3 3 2
     let c := Crafter.mk [] [] (Inventory.mk []) (some t)
     (0 < t.qty_remaining →
       ((c.update none 5).task.all fun t' => decide (0 < t'.qty_remaining)) = true) ∧
     (t = ⟨r, 3, 3, 2⟩ → r.time_per_unit = 2 → r.station = none →
       ((c.update none 5).task = some ⟨r, 3, 1, 1⟩ ∧
        (c.update none 5).inventory = (c.inventory.add r.outputs).add r.outputs))) :=
  ⟨rfl,
    crafter_update_consumes_leftover_dt
      (Crafter.mk [] [] (Inventory.mk [])
        (some (CraftTask.mk
          (Recipe.mk "bread" [("wheat", 2)] [("bread", 1)] 2 none) 3 3 2)))
      (CraftTask.mk (Recipe.mk "bread" [("wheat", 2)] [("bread", 1)] 2 none) 3 3 2)
      (Recipe.mk "bread" [("wheat", 2)] [("bread", 1)] 2 none)
      none 5 rfl⟩

/-- C9: the rectangle conventions disagree.  For the single-rectangle area
`(0, 0, 2, 2)`, the containment test (`contains`, fully inclusive) accepts
cell `(2, 2)` and the perimeter computation also uses the inclusive bounds
(`(2, 2)` is a perimeter cell), but the cell index built by `_index_area`
(half-open `range(l, r) × range(b, t)`) does not list the area for `(2, 2)`
— while it does for the interior cell `(1, 1)`.  This contradicts the
declared convention `Rect = (x1, y1, x2, y2) inclusivo` at the top of
`areas.py`. -/
theorem area_index_convention_mismatch :
    (RectArea.mk "a1" .rectArea [(0, 0, 2, 2)] [] none).contains (2, 2) = true ∧
    ((2, 2) ∈ (RectArea.mk "a1" .rectArea [(0, 0, 2, 2)] [] none).perimeter_cells) ∧
    (AreaManager.init
        [("a1", RectArea.mk "a1" .rectArea [(0, 0, 2, 2)] [] none)]).areas_for_cell
      (2, 2) = [] ∧
    (AreaManager.init
        [("a1", RectArea.mk "a1" .rectArea [(0, 0, 2, 2)] [] none)]).areas_for_cell
      (1, 1) = ["a1"] := by
  decide

/-- C10: `perimeter_blocked_cells` hands out a fresh set object on every
call.  Provided the store is well formed (the cache reference, when present,
was allocated earlier than `nextRef`), the returned reference differs from
the cache reference, mutating the returned object leaves the cache contents
untouched, and a second call (no intervening `add`/`remove`/rebuild) returns
an object with the same cells as the first call returned before the
mutation. -/
theorem perimeter_blocked_cells_returns_fresh_copy
    (m : AreaManager) (f : List Cell → List Cell) (cr : ℕ)
    (hwf : (m.perimCacheRef.all fun x => decide (x < m.nextRef)) = true)
    (hcr : (m.perimeter_blocked_cells).2.perimCacheRef = some cr) :
    cr ≠ (m.perimeter_blocked_cells).1 ∧
    storedContents
        (mutateStoredSet (m.perimeter_blocked_cells).2 (m.perimeter_blocked_cells).1 f)
        cr =
      storedContents (m.perimeter_blocked_cells).2 cr ∧
    storedContents
        ((mutateStoredSet (m.perimeter_blocked_cells).2
            (m.perimeter_blocked_cells).1 f).perimeter_blocked_cells).2
        ((mutateStoredSet (m.perimeter_blocked_cells).2
            (m.perimeter_blocked_cells).1 f).perimeter_blocked_cells).1 =
      storedContents (m.perimeter_blocked_cells).2 (m.perimeter_blocked_cells).1 := by
  cases hcache : m.perimCacheRef with
  | none =>
    have hpbc : m.perimeter_blocked_cells =
        (m.nextRef + 1,
         { m with
             perimCacheRef := some m.nextRef,
             setStore :=
               setA (setA m.setStore m.nextRef (perimeterUnion m.areasD))
                 (m.nextRef + 1) (perimeterUnion m.areasD),
             nextRef := m.nextRef + 2 }) := by
      simp [AreaManager.perimeter_blocked_cells, hcache]
    rw [hpbc] at hcr ⊢
    simp only at hcr
    have hcr' : cr = m.nextRef := (Option.some.inj hcr).symm
    subst hcr'
    refine ⟨by omega, ?_, ?_⟩
    · simp only [mutateStoredSet, storedContents]
      rw [lookupA_setA_of_ne _ _ _ _ (by omega)]
    · simp only [mutateStoredSet, storedContents, AreaManager.perimeter_blocked_cells]
      rw [lookupA_setA_self]
      rw [lookupA_setA_self]
      simp only [Option.getD_some]
      rw [lookupA_setA_of_ne _ _ _ _ (by omega)]
      rw [lookupA_setA_of_ne _ _ _ _ (by omega)]
      rw [lookupA_setA_self]
      rfl
  | some c0 =>
    have hcc : m.perimCacheRef = some cr := by
      have hpbc0 : (m.perimeter_blocked_cells).2.perimCacheRef = m.perimCacheRef := by
        simp [AreaManager.perimeter_blocked_cells, hcache]
      rw [← hpbc0]
      exact hcr
    have hceq : c0 = cr := Option.some.inj (hcache ▸ hcc)
    subst hceq
    have hlt : c0 < m.nextRef := by
      rw [hcache] at hwf
      simpa using hwf
    have hne : c0 ≠ m.nextRef := Nat.ne_of_lt hlt
    have hpbc : m.perimeter_blocked_cells =
        (m.nextRef,
         { m with
             setStore :=
               setA m.setStore m.nextRef ((lookupA m.setStore c0).getD []),
             nextRef := m.nextRef + 1 }) := by
      simp [AreaManager.perimeter_blocked_cells, hcache]
    rw [hpbc]
    refine ⟨hne, ?_, ?_⟩
    · simp only [mutateStoredSet, storedContents]
      rw [lookupA_setA_of_ne _ _ _ _ hne]
    · simp only [mutateStoredSet, storedContents,
        AreaManager.perimeter_blocked_cells, hcache]
      rw [lookupA_setA_self]
      rw [lookupA_setA_self]
      simp only [Option.getD_some]
      rw [lookupA_setA_of_ne _ _ _ _ hne]
      rw [lookupA_setA_of_ne _ _ _ _ hne]

/-- Witness for C10 on a one-area manager: the first call allocates cache
object 0 and returns object 1; emptying the returned object leaves the cache
intact and a second call still returns the full perimeter. -/
theorem perimeter_blocked_cells_returns_fresh_copy_witness :
    (((AreaManager.init
        [("a1", RectArea.mk "a1" .rectArea [(0, 0, 1, 1)] [] none)]).perimCacheRef.all
          fun x => decide (x < (AreaManager.init
            [("a1", RectArea.mk "a1" .rectArea [(0, 0, 1, 1)] [] none)]).nextRef)) = true) ∧
    ((AreaManager.init
        [("a1", RectArea.mk "a1" .rectArea [(0, 0, 1, 1)] [] none)]).perimeter_blocked_cells.2.perimCacheRef
      = some 0) ∧
    (let m := AreaManager.init [("a1", RectArea.mk "a1" .rectArea [(0, 0, 1, 1)] [] none)]
     let f : List Cell → List Cell := fun _ => []
     (0 : ℕ) ≠ (m.perimeter_blocked_cells).1 ∧
     storedContents
         (mutateStoredSet (m.perimeter_blocked_cells).2 (m.perimeter_blocked_cells).1 f) 0 =
       storedContents (m.perimeter_blocked_cells).2 0 ∧
     storedContents
         ((mutateStoredSet (m.perimeter_blocked_cells).2
             (m.perimeter_blocked_cells).1 f).perimeter_blocked_cells).2
         ((mutateStoredSet (m.perimeter_blocked_cells).2
             (m.perimeter_blocked_cells).1 f).perimeter_blocked_cells).1 =
       storedContents (m.perimeter_blocked_cells).2 (m.perimeter_blocked_cells).1) :=
  ⟨by decide, by decide,
    perimeter_blocked_cells_returns_fresh_copy
      (AreaManager.init [("a1", RectArea.mk "a1" .rectArea [(0, 0, 1, 1)] [] none)])
      (fun _ => []) 0 (by decide) (by decide)⟩

/-- C8 counterexample: the station gate does **not** compare area kinds.  A
`BakeryArea` has kind `"bakery"`; with a recipe whose station is the kind
string `"bakery"`, an agent standing inside that area (current area name set
by `set_current_area_name` to `type(a).__name__ = "BakeryArea"`) fails the
station check with `WRONG_STATION`, although the kind of its current area
equals the recipe's station kind and every other precondition holds. -/
theorem crafter_station_kind_counterexample :
    (RectArea.mk "b1" .bakeryArea [(0, 0, 4, 4)] [] none).kind = "bakery" ∧
    setCurrentAreaName
        (AreaManager.init
          [("b1", RectArea.mk "b1" .bakeryArea [(0, 0, 4, 4)] [] none)])
        (1, 1) = some "BakeryArea" ∧
    ((Crafter.mk [("bread", Recipe.mk "bread" [] [] 2 (some "bakery"))]
        ["bread"] (Inventory.mk []) none).start
      (setCurrentAreaName
        (AreaManager.init
          [("b1", RectArea.mk "b1" .bakeryArea [(0, 0, 4, 4)] [] none)])
        (1, 1))
      "bread" 1).1 = (false, some CraftError.WRONG_STATION) := by
  decide

/-- C8 amended: the station gate of the crafting engine compares the recipe's
`station` string against the **Python class name** of the agent's current
area (`type(a).__name__`, as stored by `set_current_area_name`), not against
the area's `kind` field and not against its id.  Hence: (1) the shared gate
passes exactly when the class name equals the station string; (2) with all
earlier `start` checks passing, `start` reports `WRONG_STATION` exactly when
the class name differs; (3) areas of equal class — whatever their ids,
rectangles or entrances — produce identical `start` results; (4) `update`
cancels an active station-gated task when the class name differs. -/
theorem crafter_station_gate_by_class
    (c : Crafter) (name : String) (qty : Int) (r : Recipe) (st : String)
    (m m2 : AreaManager) (cell cell2 : Cell) (a a2 : RectArea)
    (ct : Crafter) (t : CraftTask) (dt : ℚ)
    (hr : lookupA c.registry name = some r) (hst : r.station = some st)
    (htask : c.task = none) (hqty : 0 < qty) (hknown : name ∈ c.known_recipes)
    (ha : m.area_at cell = some a) (ha2 : m2.area_at cell2 = some a2)
    (hcls : a2.cls = a.cls)
    (hct : ct.task = some t) (htr : t.recipe.station = some st) :
    (stationMismatch r.station (setCurrentAreaName m cell) = false ↔
      a.cls.pyName = st) ∧
    (((c.start (setCurrentAreaName m cell) name qty).1.2 =
        some CraftError.WRONG_STATION) ↔ a.cls.pyName ≠ st) ∧
    (c.start (setCurrentAreaName m2 cell2) name qty =
      c.start (setCurrentAreaName m cell) name qty) ∧
    (a.cls.pyName ≠ st →
      ct.update (setCurrentAreaName m cell) dt = { ct with task := none }) := by
  have hname : setCurrentAreaName m cell = some a.cls.pyName := by
    simp [setCurrentAreaName, ha]
  have hname2 : setCurrentAreaName m2 cell2 = some a2.cls.pyName := by
    simp [setCurrentAreaName, ha2]
  have hgate : ∀ s : String,
      stationMismatch r.station (some s) = false ↔ s = st := by
    intro s
    simp [stationMismatch, hst]
  refine ⟨by rw [hname]; exact hgate _, ?_, ?_, ?_⟩
  · rw [hname]
    have h1 : ¬ c.task.isSome = true := by simp [htask]
    have h2 : ¬ qty ≤ 0 := by omega
    by_cases hm : a.cls.pyName = st
    · have hmf : stationMismatch r.station (some a.cls.pyName) = false :=
        (hgate _).mpr hm
      constructor
      · intro hcontra
        simp only [Crafter.start, hr, h1, h2, hknown, hmf] at hcontra
        simp only [if_false, if_true, not_true] at hcontra
        rcases hrem : c.inventory.remove (scaleReq r.inputs qty) with ⟨ok, inv'⟩
        rw [hrem] at hcontra
        cases ok <;> simp at hcontra
      · intro hne
        exact absurd hm hne
    · have hmt : stationMismatch r.station (some a.cls.pyName) = true := by
        cases hx : stationMismatch r.station (some a.cls.pyName) with
        | true => rfl
        | false => exact absurd ((hgate _).mp hx) hm
      constructor
      · intro _
        exact hm
      · intro _
        simp [Crafter.start, hr, h1, h2, hknown, hmt]
  · rw [hname, hname2, hcls]
  · intro hne
    have hmt : stationMismatch t.recipe.station (setCurrentAreaName m cell) = true := by
      rw [hname, htr]
      simp [stationMismatch]
      intro h'
      exact hne h'
    simp [Crafter.update, hct, hmt]

/-- Witness for the amended C8: two bakery areas with different ids and
rectangles both pass a `station = "BakeryArea"` gate; an active task with the
same station is not cancelled there; all hypotheses are checked on concrete
data. -/
theorem crafter_station_gate_by_class_witness :
    (let r := Recipe.mk "bread" [] [] 2 (some "BakeryArea")
     let c := Crafter.mk [("bread", r)] ["bread"] (Inventory.mk []) none
     let m := AreaManager.init
       [("b1", RectArea.mk "b1" .bakeryArea [(0, 0, 4, 4)] [] none)]
     let m2 := AreaManager.init
       [("b2", RectArea.mk "b2" .bakeryArea [(10, 10, 12, 12)] [(10, 10)] none)]
     let a := RectArea.mk "b1" .bakeryArea [(0, 0, 4, 4)] [] none
     let a2 := RectArea.mk "b2" .bakeryArea [(10, 10, 12, 12)] [(10, 10)] none
     let t := CraftTask.mk r 1 1 2
     let ct := Crafter.mk ([] : List (String × Recipe)) [] (Inventory.mk []) (some t)
     lookupA c.registry "bread" = some r ∧
     r.station = some "BakeryArea" ∧
     c.task = none ∧
     (0 : Int) < 1 ∧
     "bread" ∈ c.known_recipes ∧
     m.area_at (1, 1) = some a ∧
     m2.area_at (11, 11) = some a2 ∧
     a2.cls = a.cls ∧
     ct.task = some t ∧
     t.recipe.station = some "BakeryArea" ∧
     ((stationMismatch r.station (setCurrentAreaName m (1, 1)) = false ↔
        a.cls.pyName = "BakeryArea") ∧
      (((c.start (setCurrentAreaName m (1, 1)) "bread" 1).1.2 =
          some CraftError.WRONG_STATION) ↔ a.cls.pyName ≠ "BakeryArea") ∧
      (c.start (setCurrentAreaName m2 (11, 11)) "bread" 1 =
        c.start (setCurrentAreaName m (1, 1)) "bread" 1) ∧
      (a.cls.pyName ≠ "BakeryArea" →
        ct.update (setCurrentAreaName m (1, 1)) 1 = { ct with task := none }))) :=
  ⟨by decide, by decide, by decide, by decide, by decide, by decide, by decide,
   by decide, by decide, by decide,
   crafter_station_gate_by_class
     (Crafter.mk [("bread", Recipe.mk "bread" [] [] 2 (some "BakeryArea"))]
       ["bread"] (Inventory.mk []) none)
     "bread" 1 (Recipe.mk "bread" [] [] 2 (some "BakeryArea")) "BakeryArea"
     (AreaManager.init
       [("b1", RectArea.mk "b1" .bakeryArea [(0, 0, 4, 4)] [] none)])
     (AreaManager.init
       [("b2", RectArea.mk "b2" .bakeryArea [(10, 10, 12, 12)] [(10, 10)] none)])
     (1, 1) (11, 11)
     (RectArea.mk "b1" .bakeryArea [(0, 0, 4, 4)] [] none)
     (RectArea.mk "b2" .bakeryArea [(10, 10, 12, 12)] [(10, 10)] none)
     (Crafter.mk ([] : List (String × Recipe)) [] (Inventory.mk [])
       (some (CraftTask.mk (Recipe.mk "bread" [] [] 2 (some "BakeryArea")) 1 1 2)))
     (CraftTask.mk (Recipe.mk "bread" [] [] 2 (some "BakeryArea")) 1 1 2) 1
     (by decide) (by decide) (by decide) (by decide) (by decide) (by decide)
     (by decide) (by decide) (by decide) (by decide)⟩

theorem applyOp_preserves_empty (m : ObjectManager)
    (h1 : m.obj_by_cell = []) (h2 : m.objectsAttr = none) (op : LedgerOp) :
    (applyOp m op).obj_by_cell = [] ∧ (applyOp m op).objectsAttr = none := by
  cases op with
  | spawnOp t c =>
    simp only [applyOp, ObjectManager.spawn, h1, lookupA]
    cases hmk : make_item t c m.counter with
    | error e => simp [h1, h2]
    | ok pr => simp [h2, h1]
  | commitPickOp a o =>
    simp [applyOp, ObjectManager.commit_pick, h2, h1]
  | commitDropOp a c t q =>
    simp only [applyOp, ObjectManager.commit_drop]
    by_cases hq : q ≠ 1
    · simp [hq, h1, h2]
    · simp only [hq, if_false]
      rcases hcd : m.can_drop c with ⟨ok, reason⟩
      cases ok with
      | false => simp [h1, h2]
      | true =>
        cases hmk : make_item t c m.counter with
        | error e => simp [h1, h2]
        | ok pr => simp [h2, h1]

/-- C1: ground-occupancy invariant.  Starting from a fresh `ObjectManager`,
after every sequence of `spawn` / `commit_pick` / `commit_drop` operations
the cell-to-object map never associates two distinct object ids with one
cell, and a held object has no ground-occupancy entry.  (On this code the
invariant holds trivially: because every method reads the never-assigned
`self.objects` attribute, each of the three operations raises before it ever
writes `obj_by_cell`, so the ground map stays empty — see the C2 theorem for
the raise itself.) -/
theorem ledger_ground_occupancy (ops : List LedgerOp) :
    groundInv (runOps initialOM ops) := by
  have key : ∀ (l : List LedgerOp) (m : ObjectManager),
      m.obj_by_cell = [] → m.objectsAttr = none →
      (runOps m l).obj_by_cell = [] ∧ (runOps m l).objectsAttr = none := by
    intro l
    induction l with
    | nil => intro m h1 h2; exact ⟨h1, h2⟩
    | cons op rest ih =>
      intro m h1 h2
      have hstep := applyOp_preserves_empty m h1 h2 op
      exact ih (applyOp m op) hstep.1 hstep.2
  obtain ⟨h1, h2⟩ := key ops initialOM rfl rfl
  constructor
  · intro c o1 o2 hm1 hm2
    rw [h1] at hm1
    cases hm1
  · intro objs hobjs
    rw [h2] at hobjs
    cases hobjs

/-- C1 witness: the invariant after a concrete operation sequence (a spawn,
a drop and a pick). -/
theorem ledger_ground_occupancy_witness :
    groundInv (runOps initialOM
      [.spawnOp "wheat" (2, 3), .commitDropOp "npc1" (4, 4) "bread" 1,
       .commitPickOp "npc1" "obj_1"]) :=
  ledger_ground_occupancy
    [.spawnOp "wheat" (2, 3), .commitDropOp "npc1" (4, 4) "bread" 1,
     .commitPickOp "npc1" "obj_1"]

/-- C2: the runtime ledger operations do raise.  `__init__` assigns
`self._objects` but `commit_pick` and the success path of `commit_drop` read
`self.objects`, an attribute never assigned anywhere, so on a fresh manager
`commit_pick` raises `AttributeError` for every argument (instead of
returning `(False, OBJ_NOT_FOUND, None)`), and `commit_drop` of one `wheat`
onto a free, unblocked cell raises `AttributeError` as well (instead of
returning `(True, None, [obj_id])`). -/
theorem ledger_commit_raises_attribute_error :
    (initialOM.commit_pick "a" "obj_1").1 =
      Except.error PyError.attributeError ∧
    (initialOM.commit_pick "a" "obj_1").2 = initialOM ∧
    (initialOM.commit_drop "a" (0, 0) "wheat" 1).1 =
      Except.error PyError.attributeError := by
  decide

/-- C4 counterexample: the `start == goal` early return precedes the
blocked/in-bounds checks, so for a blocked cell queried against itself
`astar` returns `[start]`, not the empty sequence the claim demands for
every query with a blocked endpoint. -/
theorem astar_blocked_start_goal_counterexample :
    ((1, 1) : Cell) ∈ (GridSpec.mk 3 3 [(1, 1)]).blocked ∧
    astar (1, 1) (1, 1) (GridSpec.mk 3 3 [(1, 1)]) = [(1, 1)] := by
  decide

/-- C4 amended: `astar` returns `[start]` for **every** query with
`start == goal` (even a blocked or out-of-bounds one, since that check comes
first); when `start ≠ goal`, a blocked or out-of-bounds start or goal yields
the empty sequence. -/
theorem astar_trivial_and_invalid_queries (grid : GridSpec) (s g : Cell) :
    (s = g → astar s g grid = [s]) ∧
    (s ≠ g →
      (in_bounds s grid.width_cells grid.height_cells = false ∨
       in_bounds g grid.width_cells grid.height_cells = false ∨
       s ∈ grid.blocked ∨ g ∈ grid.blocked) →
      astar s g grid = []) := by
  constructor
  · intro h
    simp [astar, h]
  · intro hne hbad
    simp only [astar, if_neg hne]
    rcases hbad with h | h | h | h
    · simp [h]
    · by_cases hs : in_bounds s grid.width_cells grid.height_cells
      · simp [hs, h]
      · simp [hs]
    · by_cases hs : in_bounds s grid.width_cells grid.height_cells
      · by_cases hg : in_bounds g grid.width_cells grid.height_cells
        · simp [hs, hg, h]
        · simp [hs, hg]
      · simp [hs]
    · by_cases hs : in_bounds s grid.width_cells grid.height_cells
      · by_cases hg : in_bounds g grid.width_cells grid.height_cells
        · simp [hs, hg, h]
        · simp [hs, hg]
      · simp [hs]

/-- Witness for the amended C4 on a concrete grid: same-cell query on a
blocked cell, and a blocked distinct goal. -/
theorem astar_trivial_and_invalid_queries_witness :
    (((0, 0) : Cell) = (2, 2) →
      astar (0, 0) (2, 2) (GridSpec.mk 3 3 [(2, 2)]) = [(0, 0)]) ∧
    (((0, 0) : Cell) ≠ (2, 2) →
      (in_bounds (0, 0) (GridSpec.mk 3 3 [(2, 2)]).width_cells
         (GridSpec.mk 3 3 [(2, 2)]).height_cells = false ∨
       in_bounds (2, 2) (GridSpec.mk 3 3 [(2, 2)]).width_cells
         (GridSpec.mk 3 3 [(2, 2)]).height_cells = false ∨
       ((0, 0) : Cell) ∈ (GridSpec.mk 3 3 [(2, 2)]).blocked ∨
       ((2, 2) : Cell) ∈ (GridSpec.mk 3 3 [(2, 2)]).blocked) →
      astar (0, 0) (2, 2) (GridSpec.mk 3 3 [(2, 2)]) = []) :=
  astar_trivial_and_invalid_queries (GridSpec.mk 3 3 [(2, 2)]) (0, 0) (2, 2)

theorem manhattan_nonneg (a b : Cell) : 0 ≤ manhattan a b := by
  simp only [manhattan]
  positivity

theorem manhattan_self (a : Cell) : manhattan a a = 0 := by
  simp [manhattan]

theorem manhattan_step (a b t : Cell) (h : b ∈ neighbors_4 a) :
    manhattan a t ≤ manhattan b t + 1 := by
  simp only [neighbors_4, List.mem_cons, List.mem_singleton,
    List.not_mem_nil, or_false] at h
  rcases h with h | h | h | h
  all_goals (subst h; simp only [manhattan]; omega)

theorem validPath_ne_nil (grid : GridSpec) (s g : Cell) (p : List Cell)
    (h : ValidPath grid s g p) : p ≠ [] := by
  intro hnil
  rw [hnil] at h
  simpa using h.1

theorem validPath_length_pos (grid : GridSpec) (s g : Cell) (p : List Cell)
    (h : ValidPath grid s g p) : 1 ≤ p.length :=
  List.length_pos.mpr (validPath_ne_nil grid s g p h)

theorem validPath_singleton (grid : GridSpec) (s : Cell) (h : okCell grid s) :
    ValidPath grid s s [s] := by
  refine ⟨rfl, rfl, ?_, ?_⟩
  · intro c hc
    simp only [List.mem_singleton] at hc
    exact hc ▸ h
  · simp

theorem validPath_src_ok (grid : GridSpec) (s g : Cell) (p : List Cell)
    (h : ValidPath grid s g p) : okCell grid s := by
  apply h.2.2.1
  cases p with
  | nil => exact Option.noConfusion h.1
  | cons a rest =>
    have : a = s := by simpa using h.1
    simp [this]

theorem validPath_dst_ok (grid : GridSpec) (s g : Cell) (p : List Cell)
    (h : ValidPath grid s g p) : okCell grid g := by
  apply h.2.2.1
  have hl : g ∈ p.getLast? := by rw [Option.mem_def]; exact h.2.1
  obtain ⟨hne, heq⟩ := List.mem_getLast?_eq_getLast hl
  rw [heq]
  exact List.getLast_mem hne

theorem validPath_cons (grid : GridSpec) (s g a b : Cell) (rest : List Cell)
    (h : ValidPath grid s g (a :: b :: rest)) :
    a = s ∧ b ∈ neighbors_4 a ∧ ValidPath grid b g (b :: rest) := by
  obtain ⟨hh, hl, hm, hc⟩ := h
  have ha : a = s := by simpa using hh
  have hc' := List.chain'_cons.mp hc
  refine ⟨ha, hc'.1, rfl, ?_, ?_, hc'.2⟩
  · simpa using hl
  · intro c hcm
    exact hm c (List.mem_cons_of_mem a hcm)

theorem validPath_append (grid : GridSpec) (s c d : Cell) (p : List Cell)
    (h : ValidPath grid s c p) (hadj : d ∈ neighbors_4 c)
    (hok : okCell grid d) : ValidPath grid s d (p ++ [d]) := by
  obtain ⟨hh, hl, hm, hc⟩ := h
  refine ⟨?_, ?_, ?_, ?_⟩
  · rw [List.head?_append_of_ne_nil]
    · exact hh
    · exact fun hnil => by simp [hnil] at hh
  · simp
  · intro x hx
    rcases List.mem_append.mp hx with hx | hx
    · exact hm x hx
    · simp only [List.mem_singleton] at hx
      exact hx ▸ hok
  · apply List.Chain'.append hc (by simp)
    intro x hx y hy
    simp only [List.head?_cons, Option.mem_def, Option.some.injEq] at hy
    have : x = c := by
      have := hl
      simp only [Option.mem_def] at hx
      rw [hx] at this
      exact Option.some.inj this
    rw [this, ← hy]
    exact hadj

theorem manhattan_le_steps (grid : GridSpec) (p : List Cell) :
    ∀ s g : Cell, ValidPath grid s g p →
      manhattan s g ≤ (p.length : Int) - 1 := by
  induction p with
  | nil =>
    intro s g h
    exact absurd (validPath_ne_nil grid s g [] h) (by simp)
  | cons a rest ih =>
    intro s g h
    cases rest with
    | nil =>
      have hs : a = s := by simpa using h.1
      have hg : a = g := by simpa using h.2.1
      rw [← hs, ← hg]
      simp [manhattan_self]
    | cons b rest2 =>
      obtain ⟨ha, hadj, htail⟩ := validPath_cons grid s g a b rest2 h
      have h1 := ih b g htail
      have h2 := manhattan_step a b g hadj
      rw [← ha]
      simp only [List.length_cons] at h1 ⊢
      push_cast at h1 ⊢
      omega

theorem validPath_concat (grid : GridSpec) (p : List Cell) :
    ∀ s g : Cell, ValidPath grid s g p → 2 ≤ p.length →
      ∃ p' b, p = p' ++ [g] ∧ ValidPath grid s b p' ∧ g ∈ neighbors_4 b := by
  induction p with
  | nil => intro s g _ hlen; simp at hlen
  | cons a rest ih =>
    intro s g h hlen
    cases rest with
    | nil => simp at hlen
    | cons b rest2 =>
      obtain ⟨ha, hadj, htail⟩ := validPath_cons grid s g a b rest2 h
      cases rest2 with
      | nil =>
        have hg : b = g := by simpa using htail.2.1
        subst hg
        refine ⟨[a], a, by simp, ?_, ha ▸ hadj⟩
        refine ⟨by simpa using h.1, by simp [ha], ?_, by simp⟩
        · intro c hc
          simp only [List.mem_singleton] at hc
          exact hc ▸ h.2.2.1 a (by simp)
      | cons d rest3 =>
        obtain ⟨q', b', heq, hq', hadj'⟩ := ih b g htail (by simp)
        refine ⟨a :: q', b', by rw [List.cons_append, ← heq], ?_, hadj'⟩
        have hq'ne : q' ≠ [] := validPath_ne_nil grid b b' q' hq'
        refine ⟨?_, ?_, ?_, ?_⟩
        · simpa using h.1
        · have hb' : b' ∈ (a :: q').getLast? :=
            List.mem_getLast?_cons (by rw [Option.mem_def]; exact hq'.2.1)
          rwa [Option.mem_def] at hb'
        · intro c hc
          rcases List.mem_cons.mp hc with hc | hc
          · exact hc ▸ h.2.2.1 a (by simp)
          · exact hq'.2.2.1 c hc
        · have hpre : (a :: q').IsPrefix (a :: b :: d :: rest3) := by
            rw [heq, ← List.cons_append]
            exact ⟨[g], rfl⟩
          exact List.Chain'.prefix h.2.2.2 hpre

theorem isDist_unique (grid : GridSpec) (s c : Cell) (v w : Int)
    (hv : IsDist grid s c v) (hw : IsDist grid s c w) : v = w := by
  obtain ⟨⟨p, hp, hpl⟩, hvmin⟩ := hv
  obtain ⟨⟨q, hq, hql⟩, hwmin⟩ := hw
  have h1 := hvmin q hq
  have h2 := hwmin p hp
  omega

theorem isDist_exists (grid : GridSpec) (s c : Cell)
    (h : ∃ p, ValidPath grid s c p) : ∃ v : Int, IsDist grid s c v := by
  classical
  obtain ⟨p, hp⟩ := h
  have hplen := validPath_length_pos grid s c p hp
  refine ⟨(sInf {n : ℕ | ∃ q, ValidPath grid s c q ∧ q.length = n + 1} : ℕ),
    ?_, ?_⟩
  · have hne : {n : ℕ | ∃ q, ValidPath grid s c q ∧ q.length = n + 1}.Nonempty :=
      ⟨p.length - 1, p, hp, by omega⟩
    obtain ⟨q, hq, hlen⟩ := Nat.sInf_mem hne
    exact ⟨q, hq, by exact_mod_cast congrArg (Nat.cast : ℕ → Int) hlen⟩
  · intro q hq
    have hqlen := validPath_length_pos grid s c q hq
    have hmem : q.length - 1 ∈
        {n : ℕ | ∃ r, ValidPath grid s c r ∧ r.length = n + 1} :=
      ⟨q, hq, by omega⟩
    have := Nat.sInf_le hmem
    omega

theorem isDist_nonneg (grid : GridSpec) (s c : Cell) (v : Int)
    (h : IsDist grid s c v) : 0 ≤ v := by
  obtain ⟨⟨p, hp, hpl⟩, _⟩ := h
  have := validPath_length_pos grid s c p hp
  omega

theorem isDist_start (grid : GridSpec) (s : Cell) (h : okCell grid s) :
    IsDist grid s s 0 := by
  refine ⟨⟨[s], validPath_singleton grid s h, by simp⟩, ?_⟩
  intro q hq
  have := validPath_length_pos grid s s q hq
  omega

theorem isDist_pos_of_ne (grid : GridSpec) (s c : Cell) (v : Int)
    (h : IsDist grid s c v) (hne : c ≠ s) : 1 ≤ v := by
  obtain ⟨⟨p, hp, hpl⟩, _⟩ := h
  rcases p with _ | ⟨a, rest⟩
  · exact absurd (validPath_ne_nil grid s c [] hp) (by simp)
  · rcases rest with _ | ⟨b, rest2⟩
    · have hs : a = s := by simpa using hp.1
      have hg : a = c := by simpa using hp.2.1
      exact absurd (hg ▸ hs) hne
    · simp only [List.length_cons] at hpl
      push_cast at hpl
      omega

theorem isDist_pred (grid : GridSpec) (s c : Cell) (v : Int)
    (h : IsDist grid s c v) (hne : c ≠ s) :
    ∃ b, c ∈ neighbors_4 b ∧ IsDist grid s b (v - 1) := by
  obtain ⟨⟨p, hp, hpl⟩, hmin⟩ := h
  have hv1 : 1 ≤ v := isDist_pos_of_ne grid s c v ⟨⟨p, hp, hpl⟩, hmin⟩ hne
  have hlen2 : 2 ≤ p.length := by omega
  obtain ⟨p', b, heq, hp', hadj⟩ := validPath_concat grid p s c hp hlen2
  refine ⟨b, hadj, ⟨⟨p', hp', ?_⟩, ?_⟩⟩
  · have : p.length = p'.length + 1 := by rw [heq]; simp
    omega
  · intro q hq
    have hcok : okCell grid c := validPath_dst_ok grid s c p hp
    have hqc := validPath_append grid s b c q hq hadj hcok
    have := hmin (q ++ [c]) hqc
    simp only [List.length_append, List.length_singleton] at this
    push_cast at this
    omega

theorem isDist_le_path (grid : GridSpec) (s c : Cell) (v : Int)
    (h : IsDist grid s c v) (q : List Cell) (hq : ValidPath grid s c q) :
    v ≤ (q.length : Int) - 1 := by
  have := h.2 q hq
  omega

theorem isDist_succ_le (grid : GridSpec) (s c d : Cell) (v w : Int)
    (hc : IsDist grid s c v) (hadj : d ∈ neighbors_4 c)
    (hok : okCell grid d) (hd : IsDist grid s d w) : w ≤ v + 1 := by
  obtain ⟨⟨p, hp, hpl⟩, _⟩ := hc
  have hpd := validPath_append grid s c d p hp hadj hok
  have := hd.2 (p ++ [d]) hpd
  simp only [List.length_append, List.length_singleton] at this
  push_cast at this
  omega

theorem entryLE_refl (a : Int × Cell) : entryLE a a = true := by
  simp [entryLE]

theorem entryLE_total (a b : Int × Cell) :
    entryLE a b = true ∨ entryLE b a = true := by
  simp only [entryLE, decide_eq_true_eq]
  omega

theorem entryLE_trans (a b c : Int × Cell) (h1 : entryLE a b = true)
    (h2 : entryLE b c = true) : entryLE a c = true := by
  simp only [entryLE, decide_eq_true_eq] at h1 h2 ⊢
  omega

theorem entryLE_fst (a b : Int × Cell) (h : entryLE a b = true) :
    a.1 ≤ b.1 := by
  simp only [entryLE, decide_eq_true_eq] at h
  omega

theorem popMin_eq_none (l : List (Int × Cell)) :
    popMin l = none ↔ l = [] := by
  cases l with
  | nil => simp [popMin]
  | cons e rest =>
    simp only [popMin]
    constructor
    · intro h
      cases hrest : popMin rest with
      | none => rw [hrest] at h; exact Option.noConfusion h
      | some pr =>
        rw [hrest] at h
        obtain ⟨m, rest'⟩ := pr
        by_cases hle : entryLE e m = true
        · simp [hle] at h
        · simp [hle] at h
    · intro h
      exact List.noConfusion h

theorem popMin_perm (l : List (Int × Cell)) (m : Int × Cell)
    (r : List (Int × Cell)) (h : popMin l = some (m, r)) :
    l.Perm (m :: r) := by
  induction l generalizing m r with
  | nil => exact Option.noConfusion h
  | cons e rest ih =>
    simp only [popMin] at h
    cases hrest : popMin rest with
    | none =>
      rw [hrest] at h
      have hre : rest = [] := (popMin_eq_none rest).mp hrest
      change some (e, ([] : List (Int × Cell))) = some (m, r) at h
      injection Option.some.inj h with h1 h2
      subst hre
      rw [← h1, ← h2]
    | some pr =>
      obtain ⟨m2, rest2⟩ := pr
      rw [hrest] at h
      change (if entryLE e m2 = true then some (e, rest)
        else some (m2, e :: rest2)) = some (m, r) at h
      by_cases hle : entryLE e m2 = true
      · rw [if_pos hle] at h
        injection Option.some.inj h with h1 h2
        rw [← h1, ← h2]
      · rw [if_neg hle] at h
        injection Option.some.inj h with h1 h2
        have hperm := ih m2 rest2 hrest
        rw [← h1, ← h2]
        exact (hperm.cons e).trans (List.Perm.swap m2 e rest2)

theorem popMin_min (l : List (Int × Cell)) (m : Int × Cell)
    (r : List (Int × Cell)) (h : popMin l = some (m, r)) :
    ∀ x ∈ l, entryLE m x = true := by
  induction l generalizing m r with
  | nil => exact Option.noConfusion h
  | cons e rest ih =>
    simp only [popMin] at h
    cases hrest : popMin rest with
    | none =>
      rw [hrest] at h
      have hre : rest = [] := (popMin_eq_none rest).mp hrest
      change some (e, ([] : List (Int × Cell))) = some (m, r) at h
      injection Option.some.inj h with h1 _
      subst hre
      intro x hx
      simp only [List.mem_singleton] at hx
      rw [← h1, hx]
      exact entryLE_refl e
    | some pr =>
      obtain ⟨m2, rest2⟩ := pr
      rw [hrest] at h
      change (if entryLE e m2 = true then some (e, rest)
        else some (m2, e :: rest2)) = some (m, r) at h
      by_cases hle : entryLE e m2 = true
      · rw [if_pos hle] at h
        injection Option.some.inj h with h1 _
        intro x hx
        rcases List.mem_cons.mp hx with hx | hx
        · rw [← h1, hx]
          exact entryLE_refl e
        · rw [← h1]
          exact entryLE_trans e m2 x hle (ih m2 rest2 hrest x hx)
      · rw [if_neg hle] at h
        injection Option.some.inj h with h1 _
        intro x hx
        rcases List.mem_cons.mp hx with hx | hx
        · rw [← h1, hx]
          rcases entryLE_total e m2 with he | he
          · exact absurd he hle
          · exact he
        · rw [← h1]
          exact ih m2 rest2 hrest x hx

theorem nodup_inbounds_length_le (W H : Int) (l : List Cell) (hn : l.Nodup)
    (hin : ∀ c ∈ l, in_bounds c W H = true) :
    l.length ≤ W.toNat * H.toNat := by
  classical
  set S : Finset Cell :=
    (Finset.range W.toNat ×ˢ Finset.range H.toNat).image
      (fun p => ((p.1 : Int), (p.2 : Int))) with hS
  have hsub : l.toFinset ⊆ S := by
    intro c hc
    rw [List.mem_toFinset] at hc
    have hb := hin c hc
    simp only [in_bounds, decide_eq_true_eq] at hb
    rw [hS, Finset.mem_image]
    refine ⟨(c.1.toNat, c.2.toNat), ?_, ?_⟩
    · rw [Finset.mem_product]
      constructor <;> (rw [Finset.mem_range]; omega)
    · obtain ⟨x, y⟩ := c
      simp only [Prod.mk.injEq]
      constructor <;> omega
  calc l.length = l.toFinset.card := (List.toFinset_card_of_nodup hn).symm
    _ ≤ S.card := Finset.card_le_card hsub
    _ ≤ ((Finset.range W.toNat ×ˢ Finset.range H.toNat)).card :=
        Finset.card_image_le
    _ = W.toNat * H.toNat := by
        rw [Finset.card_product]
        simp

theorem ainv_g_nonneg (grid : GridSpec) (s g : Cell) (st : AState)
    (inv : AInv grid s g st) :
    ∀ c v, lookupA st.g_score c = some v → 0 ≤ v := by
  intro c v hv
  obtain ⟨p, hp, hpl⟩ := inv.g_path c v hv
  have := validPath_length_pos grid s c p hp
  omega

theorem frontier_entry (grid : GridSpec) (s g : Cell) (st : AState)
    (inv : AInv grid s g st) :
    ∀ n : ℕ, ∀ c vd, IsDist grid s c vd → vd.toNat = n →
      vd < 1000000000 → c ∉ st.closed →
      ∃ u vu, u ∉ st.closed ∧ lookupA st.g_score u = some vu ∧
        IsDist grid s u vu ∧ vu + manhattan u g ≤ vd + manhattan c g := by
  intro n
  induction n using Nat.strong_induction_on with
  | _ n ih =>
    intro c vd hdist hn hbound hcl
    by_cases hg : ∃ v, lookupA st.g_score c = some v ∧ v = vd
    · obtain ⟨v, hv, hveq⟩ := hg
      exact ⟨c, vd, hcl, hveq ▸ hv, hdist, le_refl _⟩
    · have hoks : okCell grid s := by
        obtain ⟨⟨p, hp, _⟩, _⟩ := hdist
        exact validPath_src_ok grid s c p hp
      have hcs : c ≠ s := by
        intro heq
        apply hg
        refine ⟨0, ?_, ?_⟩
        · rw [heq]
          exact inv.g_start
        · have h0 : vd = 0 := isDist_unique grid s c vd 0 hdist
            (by rw [heq]; exact isDist_start grid s hoks)
          exact h0.symm
      have h1 : 1 ≤ vd := isDist_pos_of_ne grid s c vd hdist hcs
      obtain ⟨b, hadj, hbdist⟩ := isDist_pred grid s c vd hdist hcs
      have hokc : okCell grid c := by
        obtain ⟨⟨p, hp, _⟩, _⟩ := hdist
        exact validPath_dst_ok grid s c p hp
      by_cases hbcl : b ∈ st.closed
      · obtain ⟨vb, hvb, hvbdist⟩ := inv.closed_dist b hbcl
        have hvb_eq : vb = vd - 1 :=
          isDist_unique grid s b vb (vd - 1) hvbdist hbdist
        obtain ⟨vn, hvn, hvnle⟩ :=
          inv.closed_relaxed b hbcl c hadj hokc vb hvb (by omega)
        obtain ⟨p, hp, hpl⟩ := inv.g_path c vn hvn
        have hmin := hdist.2 p hp
        have hveq : vn = vd := by omega
        exact absurd ⟨vn, hvn, hveq⟩ hg
      · obtain ⟨u, vu, hucl, hug, hudist, hule⟩ :=
          ih (vd - 1).toNat (by omega) b (vd - 1) hbdist rfl (by omega) hbcl
        refine ⟨u, vu, hucl, hug, hudist, ?_⟩
        have hstep := manhattan_step b c g hadj
        omega

theorem pop_settles (grid : GridSpec) (s g : Cell) (st : AState)
    (inv : AInv grid s g st) (f : Int) (c : Cell) (rest : List (Int × Cell))
    (hpop : popMin st.open_heap = some ((f, c), rest)) (hcl : c ∉ st.closed) :
    ∃ v, lookupA st.g_score c = some v ∧ IsDist grid s c v := by
  have hmem : (f, c) ∈ st.open_heap :=
    (popMin_perm _ _ _ hpop).mem_iff.mpr (by simp)
  obtain ⟨v, hv, hdisj⟩ := inv.heap_g (f, c) hmem
  obtain ⟨p, hp, hpl⟩ := inv.g_path c v hv
  obtain ⟨vd, hvd⟩ := isDist_exists grid s c ⟨p, hp⟩
  have hvdlev : vd ≤ v := by
    have := hvd.2 p hp
    omega
  have hvbound : vd < 1000000000 :=
    lt_of_le_of_lt hvdlev (inv.g_bound c v hv)
  by_cases heq : v = vd
  · exact ⟨v, hv, heq ▸ hvd⟩
  · have hlt : vd < v := lt_of_le_of_ne hvdlev fun h => heq h.symm
    have hcs : c ≠ s := by
      intro h2
      have hv0 : v = 0 := by
        rw [h2, inv.g_start] at hv
        exact (Option.some.inj hv).symm
      have := isDist_nonneg grid s c vd hvd
      omega
    have hfge : v + manhattan c g ≤ f := by
      rcases hdisj with h2 | h2
      · exact absurd h2 hcs
      · exact h2
    obtain ⟨u, vu, hucl, hug, hudist, hule⟩ :=
      frontier_entry grid s g st inv vd.toNat c vd hvd rfl hvbound hcl
    obtain ⟨fu, vu', hfu_mem, hvu', hfu_le⟩ :=
      inv.fresh u (by rw [hug]; rfl) hucl
    have hvueq : vu = vu' := by
      rw [hug] at hvu'
      exact Option.some.inj hvu'
    have hmono : f ≤ fu :=
      entryLE_fst _ _ (popMin_min _ _ _ hpop (fu, u) hfu_mem)
    omega

theorem heap_nonempty_of_reachable (grid : GridSpec) (s g : Cell)
    (st : AState) (inv : AInv grid s g st) (q : List Cell)
    (hq : ValidPath grid s g q) (hqb : (q.length : Int) ≤ 1000000000) :
    st.open_heap ≠ [] := by
  obtain ⟨vd, hvd⟩ := isDist_exists grid s g ⟨q, hq⟩
  have hb : vd < 1000000000 := by
    have := hvd.2 q hq
    omega
  obtain ⟨u, vu, hucl, hug, _, _⟩ :=
    frontier_entry grid s g st inv vd.toNat g vd hvd rfl hb inv.goal_not_closed
  obtain ⟨fu, vu', hfu_mem, _, _⟩ := inv.fresh u (by rw [hug]; rfl) hucl
  intro hnil
  rw [hnil] at hfu_mem
  exact absurd hfu_mem (List.not_mem_nil _)

theorem lookupA_isSome_mem_keys {κ β : Type} [DecidableEq κ]
    (l : List (κ × β)) (k : κ) (h : (lookupA l k).isSome = true) :
    k ∈ keysA l := by
  induction l with
  | nil => simp [lookupA] at h
  | cons kv rest ih =>
    obtain ⟨k', v'⟩ := kv
    by_cases hk : k' = k
    · simp [keysA, hk]
    · simp only [lookupA, if_neg hk] at h
      simp only [keysA, List.map_cons, List.mem_cons]
      exact Or.inr (ih h)

theorem cf_chain_card (grid : GridSpec) (s g : Cell) (st : AState)
    (inv : AInv grid s g st) :
    ∀ n : ℕ, ∀ c vc, lookupA st.g_score c = some vc → vc.toNat = n →
      ∃ l : List Cell, l.Nodup ∧ l.length = n ∧
        (∀ x ∈ l, (lookupA st.came_from x).isSome = true) ∧
        (∀ x ∈ l, ∃ vx, lookupA st.g_score x = some vx ∧ vx ≤ vc) := by
  intro n
  induction n using Nat.strong_induction_on with
  | _ n ih =>
    intro c vc hvc hn
    by_cases hcs : c = s
    · have hvc0 : vc = 0 := by
        rw [hcs, inv.g_start] at hvc
        exact (Option.some.inj hvc).symm
      refine ⟨[], List.nodup_nil, by simp; omega, by simp, by simp⟩
    · have hcover := inv.cf_cover c vc hvc hcs
      obtain ⟨pr, hpr⟩ := Option.isSome_iff_exists.mp hcover
      obtain ⟨_, _, _, vc', vp, hvc', hvp, heq⟩ := inv.cf_parent c pr hpr
      have hvcc : vc' = vc := by
        rw [hvc] at hvc'
        exact (Option.some.inj hvc').symm
      have hvp0 : 0 ≤ vp := ainv_g_nonneg grid s g st inv pr vp hvp
      have hn1 : 1 ≤ n := by omega
      obtain ⟨l', hnd, hlen, hcf, hbound⟩ :=
        ih (n - 1) (by omega) pr vp hvp (by omega)
      refine ⟨c :: l', ?_, by simp [hlen]; omega, ?_, ?_⟩
      · rw [List.nodup_cons]
        refine ⟨?_, hnd⟩
        intro hmem
        obtain ⟨vx, hvx, hle⟩ := hbound c hmem
        rw [hvc] at hvx
        have := Option.some.inj hvx
        omega
      · intro x hx
        rcases List.mem_cons.mp hx with hx | hx
        · rw [hx, hpr]
          rfl
        · exact hcf x hx
      · intro x hx
        rcases List.mem_cons.mp hx with hx | hx
        · exact ⟨vc, hx ▸ hvc, le_refl _⟩
        · obtain ⟨vx, hvx, hle⟩ := hbound x hx
          exact ⟨vx, hvx, by omega⟩

theorem g_val_le_cf_length (grid : GridSpec) (s g : Cell) (st : AState)
    (inv : AInv grid s g st) (c : Cell) (v : Int)
    (hv : lookupA st.g_score c = some v) :
    v.toNat ≤ st.came_from.length := by
  obtain ⟨l, hnd, hlen, hcf, _⟩ :=
    cf_chain_card grid s g st inv v.toNat c v hv rfl
  have hsub : l ⊆ keysA st.came_from := fun x hx =>
    lookupA_isSome_mem_keys st.came_from x (hcf x hx)
  have := (List.subperm_of_subset hnd hsub).length_le
  have hkeys : (keysA st.came_from).length = st.came_from.length := by
    simp [keysA]
  omega

theorem reconstructLoop_run (grid : GridSpec) (s g : Cell) (st : AState)
    (inv : AInv grid s g st) :
    ∀ n : ℕ, ∀ c vc, lookupA st.g_score c = some vc → vc.toNat = n →
      ∀ fuel, n ≤ fuel → ∀ acc,
        ∃ pfx, reconstructLoop st.came_from s fuel c acc = some (pfx ++ acc) ∧
          pfx.head? = some s ∧ pfx.getLast? = some c ∧
          (∀ x ∈ pfx, okCell grid x) ∧
          List.Chain' (fun a b => b ∈ neighbors_4 a) pfx ∧
          (pfx.length : Int) = vc + 1 := by
  intro n
  induction n using Nat.strong_induction_on with
  | _ n ih =>
    intro c vc hvc hn fuel hfuel acc
    by_cases hcs : c = s
    · have hvc0 : vc = 0 := by
        rw [hcs, inv.g_start] at hvc
        exact (Option.some.inj hvc).symm
      have hres : reconstructLoop st.came_from s fuel c acc = some (c :: acc) := by
        cases fuel with
        | zero => simp [reconstructLoop, hcs]
        | succ fuel' => simp [reconstructLoop, hcs]
      refine ⟨[c], by simpa using hres, by simp [hcs], by simp, ?_, by simp,
        by simp [hvc0]⟩
      intro x hx
      simp only [List.mem_singleton] at hx
      exact hx ▸ inv.g_ok c vc hvc
    · have hcover := inv.cf_cover c vc hvc hcs
      obtain ⟨pr, hpr⟩ := Option.isSome_iff_exists.mp hcover
      obtain ⟨_, hadj, _, vc', vp, hvc', hvp, heq⟩ := inv.cf_parent c pr hpr
      have hvcc : vc' = vc := by
        rw [hvc] at hvc'
        exact (Option.some.inj hvc').symm
      have hvp0 : 0 ≤ vp := ainv_g_nonneg grid s g st inv pr vp hvp
      have hn1 : 1 ≤ n := by omega
      cases fuel with
      | zero => omega
      | succ fuel' =>
        obtain ⟨pfx', hres', hhead', hlast', hok', hchain', hlen'⟩ :=
          ih (n - 1) (by omega) pr vp hvp (by omega) fuel' (by omega) (c :: acc)
        have hne' : pfx' ≠ [] := by
          intro hnil
          rw [hnil] at hhead'
          exact Option.noConfusion hhead'
        refine ⟨pfx' ++ [c], ?_, ?_, by simp, ?_, ?_, ?_⟩
        · have : reconstructLoop st.came_from s (fuel' + 1) c acc =
              reconstructLoop st.came_from s fuel' pr (c :: acc) := by
            simp [reconstructLoop, hcs, hpr]
          rw [this, hres']
          rw [List.append_assoc]
          rfl
        · rw [List.head?_append_of_ne_nil]
          · exact hhead'
          · exact hne'
        · intro x hx
          rcases List.mem_append.mp hx with hx | hx
          · exact hok' x hx
          · simp only [List.mem_singleton] at hx
            exact hx ▸ inv.g_ok c vc hvc
        · apply List.Chain'.append hchain' (by simp)
          intro x hx y hy
          simp only [List.head?_cons, Option.mem_def, Option.some.injEq] at hy
          have hx' : x = pr := by
            simp only [Option.mem_def] at hx
            rw [hx] at hlast'
            exact Option.some.inj hlast'
          rw [hx', ← hy]
          exact hadj
        · simp only [List.length_append, List.length_singleton]
          push_cast
          omega

theorem reconstruct_path_correct (grid : GridSpec) (s gl : Cell) (st : AState)
    (inv : AInv grid s gl st) (v : Int)
    (hv : lookupA st.g_score gl = some v) :
    ValidPath grid s gl (reconstruct_path st.came_from s gl) ∧
    ((reconstruct_path st.came_from s gl).length : Int) = v + 1 := by
  have hcond : ¬((lookupA st.came_from gl).isNone = true ∧ gl ≠ s) := by
    rintro ⟨hnone, hne⟩
    have := inv.cf_cover gl v hv hne
    rw [Option.isNone_iff_eq_none.mp hnone] at this
    exact Bool.noConfusion this
  have hfuel : v.toNat ≤ st.came_from.length + 1 := by
    have := g_val_le_cf_length grid s gl st inv gl v hv
    omega
  obtain ⟨pfx, hres, hhead, hlast, hok, hchain, hlen⟩ :=
    reconstructLoop_run grid s gl st inv v.toNat gl v hv rfl
      (st.came_from.length + 1) hfuel []
  rw [List.append_nil] at hres
  have hpath : reconstruct_path st.came_from s gl = pfx := by
    rw [reconstruct_path, if_neg hcond, hres]
    rfl
  rw [hpath]
  exact ⟨⟨hhead, hlast, hok, hchain⟩, hlen⟩

theorem neighbors_4_nodup (c : Cell) : (neighbors_4 c).Nodup := by
  obtain ⟨x, y⟩ := c
  simp [neighbors_4, Prod.ext_iff]
  omega

theorem not_mem_neighbors_self (c : Cell) : c ∉ neighbors_4 c := by
  obtain ⟨x, y⟩ := c
  simp [neighbors_4, Prod.ext_iff]
  omega

theorem relaxStep_untouched (grid : GridSpec) (gl c : Cell) (gc : Int)
    (stt : List (Int × Cell) × List (Cell × Cell) × List (Cell × Int))
    (nb x : Cell) (hx : x ≠ nb) :
    lookupA (relaxStep grid gl c gc stt nb).2.2 x = lookupA stt.2.2 x ∧
    lookupA (relaxStep grid gl c gc stt nb).2.1 x = lookupA stt.2.1 x := by
  unfold relaxStep
  split
  · exact ⟨rfl, rfl⟩
  · split
    · exact ⟨rfl, rfl⟩
    · split
      · exact ⟨lookupA_setA_of_ne _ _ _ _ hx, lookupA_setA_of_ne _ _ _ _ hx⟩
      · exact ⟨rfl, rfl⟩

theorem relaxStep_heap_mono (grid : GridSpec) (gl c : Cell) (gc : Int)
    (stt : List (Int × Cell) × List (Cell × Cell) × List (Cell × Int))
    (nb : Cell) (e : Int × Cell) (he : e ∈ stt.1) :
    e ∈ (relaxStep grid gl c gc stt nb).1 := by
  unfold relaxStep
  split
  · exact he
  · split
    · exact he
    · split
      · exact List.mem_append_left _ he
      · exact he

theorem relaxStep_heap_char (grid : GridSpec) (gl c : Cell) (gc : Int)
    (stt : List (Int × Cell) × List (Cell × Cell) × List (Cell × Int))
    (nb : Cell) (e : Int × Cell)
    (he : e ∈ (relaxStep grid gl c gc stt nb).1) :
    e ∈ stt.1 ∨ e = (gc + 1 + manhattan nb gl, nb) := by
  unfold relaxStep at he
  split at he
  · exact Or.inl he
  · split at he
    · exact Or.inl he
    · split at he
      · rcases List.mem_append.mp he with h | h
        · exact Or.inl h
        · simp only [List.mem_singleton] at h
          exact Or.inr h
      · exact Or.inl he

theorem relaxStep_len (grid : GridSpec) (gl c : Cell) (gc : Int)
    (stt : List (Int × Cell) × List (Cell × Cell) × List (Cell × Int))
    (nb : Cell) :
    (relaxStep grid gl c gc stt nb).1.length ≤ stt.1.length + 1 := by
  unfold relaxStep
  split
  · omega
  · split
    · omega
    · split
      · simp
      · omega

theorem relaxStep_fired (grid : GridSpec) (gl c : Cell) (gc : Int)
    (stt : List (Int × Cell) × List (Cell × Cell) × List (Cell × Int))
    (nb : Cell) (hok : okCell grid nb)
    (hlt : gc + 1 < (lookupA stt.2.2 nb).getD 1000000000) :
    (relaxStep grid gl c gc stt nb) =
      (stt.1 ++ [(gc + 1 + manhattan nb gl, nb)],
       setA stt.2.1 nb c, setA stt.2.2 nb (gc + 1)) := by
  obtain ⟨hin, hbl⟩ := hok
  unfold relaxStep
  rw [if_neg (by simp [hin]), if_neg hbl, if_pos hlt]

theorem relaxStep_not_fired (grid : GridSpec) (gl c : Cell) (gc : Int)
    (stt : List (Int × Cell) × List (Cell × Cell) × List (Cell × Int))
    (nb : Cell)
    (h : ¬ okCell grid nb ∨ ¬ (gc + 1 < (lookupA stt.2.2 nb).getD 1000000000)) :
    relaxStep grid gl c gc stt nb = stt := by
  unfold relaxStep
  by_cases hin : in_bounds nb grid.width_cells grid.height_cells = true
  · rw [if_neg (by simp [hin])]
    by_cases hbl : nb ∈ grid.blocked
    · rw [if_pos hbl]
    · rw [if_neg hbl]
      rcases h with h | h
      · exact absurd ⟨hin, hbl⟩ h
      · rw [if_neg h]
  · rw [if_pos (by simp [hin])]

theorem relaxFold_master (grid : GridSpec) (gl c : Cell) (gc : Int) :
    ∀ (nbs : List Cell)
      (hp : List (Int × Cell)) (cf : List (Cell × Cell))
      (gs : List (Cell × Int))
      (out : List (Int × Cell) × List (Cell × Cell) × List (Cell × Int)),
      nbs.Nodup →
      out = nbs.foldl (relaxStep grid gl c gc) (hp, cf, gs) →
      (∀ x : Cell,
        (x ∈ nbs ∧ okCell grid x ∧
          gc + 1 < (lookupA gs x).getD 1000000000) →
        (lookupA out.2.2 x = some (gc + 1) ∧
         lookupA out.2.1 x = some c ∧
         (gc + 1 + manhattan x gl, x) ∈ out.1)) ∧
      (∀ x : Cell,
        ¬ (x ∈ nbs ∧ okCell grid x ∧
          gc + 1 < (lookupA gs x).getD 1000000000) →
        (lookupA out.2.2 x = lookupA gs x ∧
         lookupA out.2.1 x = lookupA cf x)) ∧
      (∀ e, e ∈ out.1 → e ∈ hp ∨ ∃ x, x ∈ nbs ∧
        e = (gc + 1 + manhattan x gl, x) ∧
        lookupA out.2.2 x = some (gc + 1)) ∧
      (∀ e, e ∈ hp → e ∈ out.1) ∧
      out.1.length ≤ hp.length + nbs.length := by
  intro nbs
  induction nbs with
  | nil =>
    intro hp cf gs out _ hout
    subst hout
    refine ⟨?_, fun x _ => ⟨rfl, rfl⟩, fun e he => Or.inl he, fun e he => he,
      by simp⟩
    intro x hx
    exact absurd hx.1 (List.not_mem_nil x)
  | cons nb rest ih =>
    intro hp cf gs out hnd hout
    have hnb_rest : nb ∉ rest := (List.nodup_cons.mp hnd).1
    have hrest_nd : rest.Nodup := (List.nodup_cons.mp hnd).2
    rw [List.foldl_cons] at hout
    by_cases hfire : okCell grid nb ∧
        gc + 1 < (lookupA gs nb).getD 1000000000
    · have hstep := relaxStep_fired grid gl c gc (hp, cf, gs) nb hfire.1 hfire.2
      rw [hstep] at hout
      obtain ⟨hA, hB, hheap, hmono, hlen⟩ :=
        ih (hp ++ [(gc + 1 + manhattan nb gl, nb)]) (setA cf nb c)
          (setA gs nb (gc + 1)) out hrest_nd hout
      have hnb_frozen : lookupA out.2.2 nb = some (gc + 1) ∧
          lookupA out.2.1 nb = some c := by
        have := hB nb (by
          intro hcontra
          exact hnb_rest hcontra.1)
        rw [this.1, this.2, lookupA_setA_self, lookupA_setA_self]
        exact ⟨rfl, rfl⟩
      refine ⟨?_, ?_, ?_, ?_, ?_⟩
      · intro x hx
        by_cases hxnb : x = nb
        · subst hxnb
          exact ⟨hnb_frozen.1, hnb_frozen.2,
            hmono _ (List.mem_append_right _ (by simp))⟩
        · have hxrest : x ∈ rest := by
            rcases List.mem_cons.mp hx.1 with h | h
            · exact absurd h hxnb
            · exact h
          have hcond : gc + 1 < (lookupA (setA gs nb (gc + 1)) x).getD 1000000000 := by
            rw [lookupA_setA_of_ne _ _ _ _ hxnb]
            exact hx.2.2
          exact hA x ⟨hxrest, hx.2.1, hcond⟩
      · intro x hx
        by_cases hxnb : x = nb
        · subst hxnb
          exact absurd ⟨List.mem_cons_self _ _, hfire.1, hfire.2⟩ hx
        · have hx' : ¬ (x ∈ rest ∧ okCell grid x ∧
              gc + 1 < (lookupA (setA gs nb (gc + 1)) x).getD 1000000000) := by
            intro hcontra
            apply hx
            refine ⟨List.mem_cons_of_mem _ hcontra.1, hcontra.2.1, ?_⟩
            rw [lookupA_setA_of_ne _ _ _ _ hxnb] at hcontra
            exact hcontra.2.2
          have := hB x hx'
          rw [this.1, this.2, lookupA_setA_of_ne _ _ _ _ hxnb,
            lookupA_setA_of_ne _ _ _ _ hxnb]
          exact ⟨rfl, rfl⟩
      · intro e he
        rcases hheap e he with he' | ⟨x, hxr, hee, hgx⟩
        · rcases List.mem_append.mp he' with he'' | he''
          · exact Or.inl he''
          · simp only [List.mem_singleton] at he''
            exact Or.inr ⟨nb, List.mem_cons_self _ _, he'', hnb_frozen.1⟩
        · exact Or.inr ⟨x, List.mem_cons_of_mem _ hxr, hee, hgx⟩
      · intro e he
        exact hmono e (List.mem_append_left _ he)
      · simp only [List.length_append, List.length_singleton,
          List.length_cons, List.length_nil] at hlen ⊢
        omega
    · have hstep := relaxStep_not_fired grid gl c gc (hp, cf, gs) nb
        (by tauto)
      rw [hstep] at hout
      obtain ⟨hA, hB, hheap, hmono, hlen⟩ := ih hp cf gs out hrest_nd hout
      refine ⟨?_, ?_, ?_, ?_, ?_⟩
      · intro x hx
        by_cases hxnb : x = nb
        · subst hxnb
          exact absurd ⟨hx.2.1, hx.2.2⟩ hfire
        · have hxrest : x ∈ rest := by
            rcases List.mem_cons.mp hx.1 with h | h
            · exact absurd h hxnb
            · exact h
          exact hA x ⟨hxrest, hx.2.1, hx.2.2⟩
      · intro x hx
        apply hB
        intro hcontra
        exact hx ⟨List.mem_cons_of_mem _ hcontra.1, hcontra.2⟩
      · intro e he
        rcases hheap e he with he' | ⟨x, hxr, hee, hgx⟩
        · exact Or.inl he'
        · exact Or.inr ⟨x, List.mem_cons_of_mem _ hxr, hee, hgx⟩
      · exact hmono
      · simp only [List.length_cons] at hlen ⊢
        omega

theorem skip_preserves (grid : GridSpec) (s gl : Cell) (st : AState)
    (inv : AInv grid s gl st) (f : Int) (c : Cell) (rest : List (Int × Cell))
    (hpop : popMin st.open_heap = some ((f, c), rest)) (hccl : c ∈ st.closed) :
    AInv grid s gl ⟨rest, st.came_from, st.g_score, st.closed⟩ := by
  have hperm := popMin_perm st.open_heap (f, c) rest hpop
  refine ⟨inv.g_ok, inv.g_path, inv.g_start, inv.g_bound, inv.cf_parent,
    inv.cf_cover, inv.closed_nodup, inv.closed_dist, inv.closed_relaxed,
    ?_, ?_, inv.goal_not_closed⟩
  · intro e he
    exact inv.heap_g e (hperm.mem_iff.mpr (List.mem_cons_of_mem _ he))
  · intro x hxg hxcl
    obtain ⟨fv, v, hmem, hv, hle⟩ := inv.fresh x hxg hxcl
    have hmem' : (fv, x) ∈ (f, c) :: rest := hperm.mem_iff.mp hmem
    rcases List.mem_cons.mp hmem' with h | h
    · exfalso
      have : x = c := congrArg Prod.snd h
      exact hxcl (this ▸ hccl)
    · exact ⟨fv, v, h, hv, hle⟩

theorem expand_preserves (grid : GridSpec) (s gl : Cell) (st : AState)
    (inv : AInv grid s gl st) (f : Int) (c : Cell) (rest : List (Int × Cell))
    (hpop : popMin st.open_heap = some ((f, c), rest))
    (hccl : c ∉ st.closed) (hcg : c ≠ gl)
    (out : List (Int × Cell) × List (Cell × Cell) × List (Cell × Int))
    (hout : out = (neighbors_4 c).foldl
      (relaxStep grid gl c ((lookupA st.g_score c).getD 0))
      (rest, st.came_from, st.g_score)) :
    AInv grid s gl ⟨out.1, out.2.1, out.2.2, c :: st.closed⟩ ∧
    out.1.length ≤ rest.length + 4 := by
  obtain ⟨vc, hvc, hdc⟩ := pop_settles grid s gl st inv f c rest hpop hccl
  have hgcd : (lookupA st.g_score c).getD 0 = vc := by rw [hvc]; rfl
  rw [hgcd] at hout
  obtain ⟨hA, hB, hheap, hmono, hlen⟩ :=
    relaxFold_master grid gl c vc (neighbors_4 c) rest st.came_from
      st.g_score out (neighbors_4_nodup c) hout
  have hvc0 : 0 ≤ vc := ainv_g_nonneg grid s gl st inv c vc hvc
  have hvcb : vc < 1000000000 := inv.g_bound c vc hvc
  have hc_unt : lookupA out.2.2 c = lookupA st.g_score c ∧
      lookupA out.2.1 c = lookupA st.came_from c :=
    hB c (fun h => not_mem_neighbors_self c h.1)
  have hs_unt : lookupA out.2.2 s = lookupA st.g_score s ∧
      lookupA out.2.1 s = lookupA st.came_from s := by
    apply hB
    rintro ⟨_, _, hlt⟩
    rw [inv.g_start] at hlt
    simp only [Option.getD_some] at hlt
    omega
  have hcl_unt : ∀ x ∈ st.closed,
      lookupA out.2.2 x = lookupA st.g_score x ∧
      lookupA out.2.1 x = lookupA st.came_from x := by
    intro x hx
    apply hB
    rintro ⟨hmem, hok, hlt⟩
    obtain ⟨vx, hvx, hdx⟩ := inv.closed_dist x hx
    rw [hvx] at hlt
    simp only [Option.getD_some] at hlt
    have := isDist_succ_le grid s c x vc vx hdc hmem hok hdx
    omega
  have hperm := popMin_perm st.open_heap (f, c) rest hpop
  constructor
  · refine ⟨?_, ?_, ?_, ?_, ?_, ?_, ?_, ?_, ?_, ?_, ?_, ?_⟩
    · -- g_ok
      intro x vx hvx
      by_cases hcond : x ∈ neighbors_4 c ∧ okCell grid x ∧
          vc + 1 < (lookupA st.g_score x).getD 1000000000
      · exact hcond.2.1
      · rw [(hB x hcond).1] at hvx
        exact inv.g_ok x vx hvx
    · -- g_path
      intro x vx hvx
      by_cases hcond : x ∈ neighbors_4 c ∧ okCell grid x ∧
          vc + 1 < (lookupA st.g_score x).getD 1000000000
      · obtain ⟨hg', _, _⟩ := hA x hcond
        rw [hg'] at hvx
        have hvx_eq : vx = vc + 1 := (Option.some.inj hvx).symm
        obtain ⟨p, hp, hpl⟩ := inv.g_path c vc hvc
        refine ⟨p ++ [x], validPath_append grid s c x p hp hcond.1
          hcond.2.1, ?_⟩
        simp only [List.length_append, List.length_singleton]
        push_cast
        omega
      · rw [(hB x hcond).1] at hvx
        exact inv.g_path x vx hvx
    · -- g_start
      rw [hs_unt.1]
      exact inv.g_start
    · -- g_bound
      intro x vx hvx
      by_cases hcond : x ∈ neighbors_4 c ∧ okCell grid x ∧
          vc + 1 < (lookupA st.g_score x).getD 1000000000
      · obtain ⟨hg', _, _⟩ := hA x hcond
        rw [hg'] at hvx
        have hvx_eq : vx = vc + 1 := (Option.some.inj hvx).symm
        have hlt := hcond.2.2
        cases hw : lookupA st.g_score x with
        | none =>
          rw [hw] at hlt
          simp only [Option.getD_none] at hlt
          omega
        | some w =>
          rw [hw] at hlt
          simp only [Option.getD_some] at hlt
          have := inv.g_bound x w hw
          omega
      · rw [(hB x hcond).1] at hvx
        exact inv.g_bound x vx hvx
    · -- cf_parent
      intro x pr hpr
      by_cases hcond : x ∈ neighbors_4 c ∧ okCell grid x ∧
          vc + 1 < (lookupA st.g_score x).getD 1000000000
      · obtain ⟨hg', hcf', _⟩ := hA x hcond
        rw [hcf'] at hpr
        have hpr_eq : pr = c := (Option.some.inj hpr).symm
        subst hpr_eq
        refine ⟨?_, hcond.1, List.mem_cons_self _ _, vc + 1, vc, hg', ?_, rfl⟩
        · intro hxs
          have hlt := hcond.2.2
          rw [hxs, inv.g_start] at hlt
          simp only [Option.getD_some] at hlt
          omega
        · rw [hc_unt.1]
          exact hvc
      · rw [(hB x hcond).2] at hpr
        obtain ⟨hxs, hadj, hprcl, vx, vp, hvx, hvp, heq⟩ :=
          inv.cf_parent x pr hpr
        refine ⟨hxs, hadj, List.mem_cons_of_mem _ hprcl, vx, vp, ?_, ?_, heq⟩
        · rw [(hB x hcond).1]
          exact hvx
        · rw [(hcl_unt pr hprcl).1]
          exact hvp
    · -- cf_cover
      intro x vx hvx hxs
      by_cases hcond : x ∈ neighbors_4 c ∧ okCell grid x ∧
          vc + 1 < (lookupA st.g_score x).getD 1000000000
      · rw [(hA x hcond).2.1]
        rfl
      · rw [(hB x hcond).2]
        rw [(hB x hcond).1] at hvx
        exact inv.cf_cover x vx hvx hxs
    · -- closed_nodup
      exact List.nodup_cons.mpr ⟨hccl, inv.closed_nodup⟩
    · -- closed_dist
      intro x hx
      rcases List.mem_cons.mp hx with hx | hx
      · subst hx
        refine ⟨vc, ?_, hdc⟩
        rw [hc_unt.1]
        exact hvc
      · obtain ⟨vx, hvx, hdx⟩ := inv.closed_dist x hx
        refine ⟨vx, ?_, hdx⟩
        rw [(hcl_unt x hx).1]
        exact hvx
    · -- closed_relaxed
      intro x hx nb hadj hoknb vx hvx hb
      rcases List.mem_cons.mp hx with hx | hx
      · subst hx
        rw [hc_unt.1, hvc] at hvx
        have hvx_eq : vx = vc := (Option.some.inj hvx).symm
        by_cases hlt : vc + 1 < (lookupA st.g_score nb).getD 1000000000
        · obtain ⟨hg', _, _⟩ := hA nb ⟨hadj, hoknb, hlt⟩
          exact ⟨vc + 1, hg', by omega⟩
        · have hunb := hB nb (fun h => hlt h.2.2)
          cases hw : lookupA st.g_score nb with
          | none =>
            exfalso
            rw [hw] at hlt
            simp only [Option.getD_none] at hlt
            omega
          | some w =>
            rw [hw] at hlt
            simp only [Option.getD_some] at hlt
            refine ⟨w, ?_, by omega⟩
            rw [hunb.1, hw]
      · rw [(hcl_unt x hx).1] at hvx
        obtain ⟨vn, hvn, hle⟩ :=
          inv.closed_relaxed x hx nb hadj hoknb vx hvx hb
        by_cases hcond : nb ∈ neighbors_4 c ∧ okCell grid nb ∧
            vc + 1 < (lookupA st.g_score nb).getD 1000000000
        · obtain ⟨hg', _, _⟩ := hA nb hcond
          have hlt := hcond.2.2
          rw [hvn] at hlt
          simp only [Option.getD_some] at hlt
          exact ⟨vc + 1, hg', by omega⟩
        · refine ⟨vn, ?_, hle⟩
          rw [(hB nb hcond).1]
          exact hvn
    · -- heap_g
      intro e he
      rcases hheap e he with hold | ⟨x, hx, hee, hgx⟩
      · have hmem : e ∈ st.open_heap :=
          hperm.mem_iff.mpr (List.mem_cons_of_mem _ hold)
        obtain ⟨v, hv, hdisj⟩ := inv.heap_g e hmem
        by_cases hcond : e.2 ∈ neighbors_4 c ∧ okCell grid e.2 ∧
            vc + 1 < (lookupA st.g_score e.2).getD 1000000000
        · obtain ⟨hg', _, _⟩ := hA e.2 hcond
          refine ⟨vc + 1, hg', ?_⟩
          rcases hdisj with hl | hr
          · exact Or.inl hl
          · have hlt := hcond.2.2
            rw [hv] at hlt
            simp only [Option.getD_some] at hlt
            have hm := manhattan_nonneg e.2 gl
            exact Or.inr (by omega)
        · refine ⟨v, ?_, hdisj⟩
          rw [(hB e.2 hcond).1]
          exact hv
      · subst hee
        exact ⟨vc + 1, hgx, Or.inr (le_refl _)⟩
    · -- fresh
      intro x hxg hxcl
      have hxc : x ≠ c := fun h => hxcl (h ▸ List.mem_cons_self _ _)
      have hxcl' : x ∉ st.closed := fun h => hxcl (List.mem_cons_of_mem _ h)
      by_cases hcond : x ∈ neighbors_4 c ∧ okCell grid x ∧
          vc + 1 < (lookupA st.g_score x).getD 1000000000
      · obtain ⟨hg', _, hpush⟩ := hA x hcond
        exact ⟨vc + 1 + manhattan x gl, vc + 1, hpush, hg', le_refl _⟩
      · have hunx := (hB x hcond).1
        rw [hunx] at hxg
        obtain ⟨fv, v, hmem, hv, hle⟩ := inv.fresh x hxg hxcl'
        have hmem' : (fv, x) ∈ (f, c) :: rest := hperm.mem_iff.mp hmem
        rcases List.mem_cons.mp hmem' with h | h
        · exfalso
          exact hxc (congrArg Prod.snd h)
        · refine ⟨fv, v, hmono _ h, ?_, hle⟩
          rw [hunx]
          exact hv
    · -- goal_not_closed
      intro h
      rcases List.mem_cons.mp h with h | h
      · exact hcg h.symm
      · exact inv.goal_not_closed h
  · have h4 : (neighbors_4 c).length = 4 := by simp [neighbors_4]
    omega

theorem init_inv (grid : GridSpec) (s gl : Cell) (hoks : okCell grid s) :
    AInv grid s gl ⟨[(0, s)], [], [(s, 0)], []⟩ := by
  have hlook : ∀ c v, lookupA [(s, (0 : Int))] c = some v → c = s ∧ v = 0 := by
    intro c v h
    by_cases hcs : s = c
    · simp only [lookupA, if_pos hcs] at h
      exact ⟨hcs.symm, (Option.some.inj h).symm⟩
    · simp only [lookupA, if_neg hcs] at h
      exact Option.noConfusion h
  refine ⟨?_, ?_, ?_, ?_, ?_, ?_, ?_, ?_, ?_, ?_, ?_, ?_⟩
  · intro c v h
    obtain ⟨hc, _⟩ := hlook c v h
    exact hc ▸ hoks
  · intro c v h
    obtain ⟨hc, hv⟩ := hlook c v h
    refine ⟨[c], ?_, by simp [hv]⟩
    rw [hc]
    exact validPath_singleton grid s hoks
  · simp [lookupA]
  · intro c v h
    obtain ⟨_, hv⟩ := hlook c v h
    omega
  · intro c pr h
    simp [lookupA] at h
  · intro c v h hcs
    obtain ⟨hc, _⟩ := hlook c v h
    exact absurd hc hcs
  · exact List.nodup_nil
  · intro c hc
    exact absurd hc (List.not_mem_nil c)
  · intro c hc
    exact absurd hc (List.not_mem_nil c)
  · intro e he
    simp only [List.mem_singleton] at he
    subst he
    exact ⟨0, by simp [lookupA], Or.inl rfl⟩
  · intro c hc _
    have hcs : c = s := by
      by_cases h : s = c
      · exact h.symm
      · simp only [lookupA, if_neg h, Option.isSome_none] at hc
        exact Bool.noConfusion hc
    subst hcs
    refine ⟨0, 0, by simp, by simp [lookupA], ?_⟩
    have := manhattan_nonneg c gl
    omega
  · exact List.not_mem_nil gl

theorem astarLoop_step_goal (grid : GridSpec) (s gl : Cell) (fuel : ℕ)
    (st : AState) (f : Int) (cur : Cell) (rest : List (Int × Cell))
    (hpop : popMin st.open_heap = some ((f, cur), rest)) (hcg : cur = gl) :
    astarLoop grid s gl (fuel + 1) st = reconstruct_path st.came_from s gl := by
  rw [astarLoop, hpop]
  simp only [if_pos hcg]

theorem astarLoop_step_skip (grid : GridSpec) (s gl : Cell) (fuel : ℕ)
    (st : AState) (f : Int) (cur : Cell) (rest : List (Int × Cell))
    (hpop : popMin st.open_heap = some ((f, cur), rest)) (hcg : cur ≠ gl)
    (hcl : cur ∈ st.closed) :
    astarLoop grid s gl (fuel + 1) st =
      astarLoop grid s gl fuel ⟨rest, st.came_from, st.g_score, st.closed⟩ := by
  rw [astarLoop, hpop]
  simp only [if_neg hcg, if_pos hcl]

theorem astarLoop_step_expand (grid : GridSpec) (s gl : Cell) (fuel : ℕ)
    (st : AState) (f : Int) (cur : Cell) (rest : List (Int × Cell))
    (hpop : popMin st.open_heap = some ((f, cur), rest)) (hcg : cur ≠ gl)
    (hcl : cur ∉ st.closed)
    (out : List (Int × Cell) × List (Cell × Cell) × List (Cell × Int))
    (hout : out = (neighbors_4 cur).foldl
      (relaxStep grid gl cur ((lookupA st.g_score cur).getD 0))
      (rest, st.came_from, st.g_score)) :
    astarLoop grid s gl (fuel + 1) st =
      astarLoop grid s gl fuel ⟨out.1, out.2.1, out.2.2, cur :: st.closed⟩ := by
  rw [astarLoop, hpop]
  simp only [if_neg hcg, if_neg hcl]
  rw [← hout]

theorem astarLoop_opt (grid : GridSpec) (s gl : Cell) (q : List Cell)
    (hq : ValidPath grid s gl q) (hqb : (q.length : Int) ≤ 1000000000) :
    ∀ fuel st, AInv grid s gl st → phiMeasure grid st ≤ fuel →
      ValidPath grid s gl (astarLoop grid s gl fuel st) ∧
      (∀ r, ValidPath grid s gl r →
        ((astarLoop grid s gl fuel st).length : Int) ≤ (r.length : Int)) := by
  intro fuel
  induction fuel with
  | zero =>
    intro st inv hphi
    exfalso
    have hne := heap_nonempty_of_reachable grid s gl st inv q hq hqb
    have hlen0 : st.open_heap.length = 0 := by
      unfold phiMeasure at hphi
      omega
    exact hne (List.length_eq_zero.mp hlen0)
  | succ fuel ih =>
    intro st inv hphi
    cases hpop : popMin st.open_heap with
    | none =>
      exfalso
      exact heap_nonempty_of_reachable grid s gl st inv q hq hqb
        ((popMin_eq_none _).mp hpop)
    | some pr =>
      obtain ⟨⟨f, cur⟩, rest⟩ := pr
      have hheaplen : st.open_heap.length = rest.length + 1 := by
        have := (popMin_perm _ _ _ hpop).length_eq
        simpa using this
      by_cases hcg : cur = gl
      · rw [astarLoop_step_goal grid s gl fuel st f cur rest hpop hcg]
        have hglcl : cur ∉ st.closed := by
          rw [hcg]
          exact inv.goal_not_closed
        obtain ⟨v, hv, hd⟩ := pop_settles grid s gl st inv f cur rest hpop hglcl
        rw [hcg] at hv hd
        obtain ⟨hpath, hlen⟩ := reconstruct_path_correct grid s gl st inv v hv
        refine ⟨hpath, ?_⟩
        intro r hr
        have := hd.2 r hr
        omega
      · by_cases hcl : cur ∈ st.closed
        · rw [astarLoop_step_skip grid s gl fuel st f cur rest hpop hcg hcl]
          apply ih
          · exact skip_preserves grid s gl st inv f cur rest hpop hcl
          · unfold phiMeasure at hphi ⊢
            simp only
            omega
        · rw [astarLoop_step_expand grid s gl fuel st f cur rest hpop hcg hcl
            _ rfl]
          obtain ⟨inv', hlen'⟩ := expand_preserves grid s gl st inv f cur rest
            hpop hcl hcg _ rfl
          apply ih _ inv'
          have hcl_le : (cur :: st.closed).length ≤
              grid.width_cells.toNat * grid.height_cells.toNat := by
            apply nodup_inbounds_length_le _ _ _ inv'.closed_nodup
            intro x hx
            obtain ⟨vx, hvx, _⟩ := inv'.closed_dist x hx
            exact (inv'.g_ok x vx hvx).1
          unfold phiMeasure at hphi ⊢
          simp only [List.length_cons] at hcl_le ⊢
          omega

theorem astarLoop_sound (grid : GridSpec) (s gl : Cell) :
    ∀ fuel st, AInv grid s gl st →
      astarLoop grid s gl fuel st ≠ [] →
      ValidPath grid s gl (astarLoop grid s gl fuel st) ∧
      ((astarLoop grid s gl fuel st).length : Int) ≤ 1000000000 := by
  intro fuel
  induction fuel with
  | zero =>
    intro st _ hne
    exact absurd rfl hne
  | succ fuel ih =>
    intro st inv hne
    cases hpop : popMin st.open_heap with
    | none =>
      exfalso
      apply hne
      rw [astarLoop, hpop]
    | some pr =>
      obtain ⟨⟨f, cur⟩, rest⟩ := pr
      by_cases hcg : cur = gl
      · rw [astarLoop_step_goal grid s gl fuel st f cur rest hpop hcg]
        have hglcl : cur ∉ st.closed := by
          rw [hcg]
          exact inv.goal_not_closed
        obtain ⟨v, hv, _⟩ := pop_settles grid s gl st inv f cur rest hpop hglcl
        rw [hcg] at hv
        obtain ⟨hpath, hlen⟩ := reconstruct_path_correct grid s gl st inv v hv
        have hb := inv.g_bound gl v hv
        exact ⟨hpath, by omega⟩
      · by_cases hcl : cur ∈ st.closed
        · rw [astarLoop_step_skip grid s gl fuel st f cur rest hpop hcg hcl]
            at hne ⊢
          exact ih _ (skip_preserves grid s gl st inv f cur rest hpop hcl) hne
        · rw [astarLoop_step_expand grid s gl fuel st f cur rest hpop hcg hcl
            _ rfl] at hne ⊢
          exact ih _ (expand_preserves grid s gl st inv f cur rest hpop hcl
            hcg _ rfl).1 hne

theorem astar_returns_shortest (grid : GridSpec) (s g : Cell) (q : List Cell)
    (hq : ValidPath grid s g q) (hqb : (q.length : Int) ≤ 1000000000)
    (hsg : s ≠ g) :
    ValidPath grid s g (astar s g grid) ∧
    (∀ r, ValidPath grid s g r →
      ((astar s g grid).length : Int) ≤ (r.length : Int)) := by
  have hoks := validPath_src_ok grid s g q hq
  have hokg := validPath_dst_ok grid s g q hq
  rw [astar, if_neg hsg, if_neg (by simp [hoks.1]), if_neg (by simp [hokg.1]),
    if_neg (by push_neg; exact ⟨hoks.2, hokg.2⟩)]
  apply astarLoop_opt grid s g q hq hqb
  · exact init_inv grid s g hoks
  · unfold phiMeasure astarFuel
    simp

theorem corridor_path_valid (n : ℕ) :
    ValidPath ⟨(n : Int) + 2, 1, []⟩ ((0 : Int), (0 : Int))
      ((n : Int) + 1, (0 : Int))
      ((List.range (n + 2)).map (fun i : ℕ => ((i : Int), (0 : Int)))) := by
  refine ⟨?_, ?_, ?_, ?_⟩
  · rw [List.head?_map]
    have h2 : n + 2 = (n + 1) + 1 := rfl
    rw [h2, List.range_succ_eq_map]
    simp
  · have h2 : n + 2 = (n + 1) + 1 := rfl
    rw [h2, List.range_succ, List.map_append]
    simp only [List.map_cons, List.map_nil, List.getLast?_concat,
      Option.some.injEq, Prod.mk.injEq]
    constructor
    · push_cast
      ring
    · trivial
  · intro x hx
    obtain ⟨i, hi, hfx⟩ := List.mem_map.mp hx
    rw [List.mem_range] at hi
    subst hfx
    constructor
    · simp only [in_bounds, decide_eq_true_eq]
      refine ⟨by positivity, ?_, le_refl _, by norm_num⟩
      omega
    · simp
  · rw [List.chain'_map]
    have h2 : n + 2 = (n + 1) + 1 := rfl
    rw [h2]
    rw [List.chain'_range_succ]
    intro m hm
    simp only [neighbors_4, List.mem_cons, Prod.mk.injEq]
    right
    left
    constructor
    · push_cast
      ring
    · trivial

/-- C3: corrected.  On any grid, whenever some valid 4-connected route of at
most 1,000,000,000 cells joins `start` to `goal` (so the true distance is
below the `g_score.get(nb, 1_000_000_000)` default that acts as infinity),
`astar` returns a valid route from `start` to `goal` that is shortest among
all valid routes; and when some such route meets the Manhattan lower bound
(no obstacle makes a detour necessary), the returned route has exactly
`manhattan(start, goal)` steps, i.e. `manhattan(start, goal) + 1` cells. -/
theorem astar_optimal (grid : GridSpec) (s g : Cell) (q : List Cell)
    (hq : ValidPath grid s g q) (hqb : (q.length : Int) ≤ 1000000000) :
    ValidPath grid s g (astar s g grid) ∧
    (∀ r, ValidPath grid s g r →
      ((astar s g grid).length : Int) ≤ (r.length : Int)) ∧
    (manhattan s g = (q.length : Int) - 1 →
      ((astar s g grid).length : Int) = manhattan s g + 1) := by
  by_cases hsg : s = g
  · rw [astar, if_pos hsg]
    have hoks := validPath_src_ok grid s g q hq
    refine ⟨?_, ?_, ?_⟩
    · rw [← hsg]
      exact validPath_singleton grid s hoks
    · intro r hr
      have := validPath_length_pos grid s g r hr
      simp only [List.length_singleton]
      omega
    · intro _
      rw [hsg, manhattan_self]
      simp
  · obtain ⟨hpath, hmin⟩ := astar_returns_shortest grid s g q hq hqb hsg
    refine ⟨hpath, hmin, ?_⟩
    intro hman
    have h1 := hmin q hq
    have h2 := manhattan_le_steps grid (astar s g grid) s g hpath
    omega

theorem astar_optimal_witness :
    ValidPath ⟨3, 3, [((1 : Int), (1 : Int))]⟩ ((0 : Int), (0 : Int))
      ((2 : Int), (2 : Int))
      [((0 : Int), (0 : Int)), (1, 0), (2, 0), (2, 1), (2, 2)] ∧
    (([((0 : Int), (0 : Int)), (1, 0), (2, 0), (2, 1), (2, 2)].length : Int) ≤
      1000000000) ∧
    (ValidPath ⟨3, 3, [((1 : Int), (1 : Int))]⟩ ((0 : Int), (0 : Int))
      ((2 : Int), (2 : Int))
      (astar ((0 : Int), (0 : Int)) ((2 : Int), (2 : Int))
        ⟨3, 3, [((1 : Int), (1 : Int))]⟩) ∧
    (∀ r, ValidPath ⟨3, 3, [((1 : Int), (1 : Int))]⟩ ((0 : Int), (0 : Int))
        ((2 : Int), (2 : Int)) r →
      ((astar ((0 : Int), (0 : Int)) ((2 : Int), (2 : Int))
        ⟨3, 3, [((1 : Int), (1 : Int))]⟩).length : Int) ≤ (r.length : Int)) ∧
    (manhattan ((0 : Int), (0 : Int)) ((2 : Int), (2 : Int)) =
        (([((0 : Int), (0 : Int)), (1, 0), (2, 0), (2, 1), (2, 2)].length :
          Int)) - 1 →
      ((astar ((0 : Int), (0 : Int)) ((2 : Int), (2 : Int))
        ⟨3, 3, [((1 : Int), (1 : Int))]⟩).length : Int) =
        manhattan ((0 : Int), (0 : Int)) ((2 : Int), (2 : Int)) + 1)) :=
  ⟨by decide, by decide,
    astar_optimal ⟨3, 3, [((1 : Int), (1 : Int))]⟩ ((0 : Int), (0 : Int))
      ((2 : Int), (2 : Int))
      [((0 : Int), (0 : Int)), (1, 0), (2, 0), (2, 1), (2, 2)]
      (by decide) (by decide)⟩

/-- C3 (refutation of the unconditional statement): on a 1,000,000,002-cell
long, 1-cell high corridor with no blocked cells, `(0,0)` and
`(1000000001, 0)` are in bounds, unblocked and 4-connected via unblocked
cells (the corridor itself is a valid route), yet `astar` returns the empty
list: `g_score.get(nb, 1_000_000_000)` makes 1,000,000,000 an infinity cap,
and every route here has at least 1,000,000,002 cells, so no relaxation ever
fires beyond the cap and the open heap drains. -/
theorem astar_distance_cap_counterexample :
    ValidPath ⟨1000000002, 1, []⟩ ((0 : Int), (0 : Int))
      ((1000000001 : Int), (0 : Int))
      ((List.range 1000000002).map (fun i : ℕ => ((i : Int), (0 : Int)))) ∧
    astar ((0 : Int), (0 : Int)) ((1000000001 : Int), (0 : Int))
      ⟨1000000002, 1, []⟩ = [] := by
  have hpath : ValidPath ⟨1000000002, 1, []⟩ ((0 : Int), (0 : Int))
      ((1000000001 : Int), (0 : Int))
      ((List.range 1000000002).map (fun i : ℕ => ((i : Int), (0 : Int)))) := by
    have h := corridor_path_valid 1000000000
    have e1 : ((1000000000 : ℕ) : Int) + 2 = 1000000002 := by norm_num
    have e2 : ((1000000000 : ℕ) : Int) + 1 = 1000000001 := by norm_num
    have e3 : (1000000000 + 2 : ℕ) = 1000000002 := by norm_num
    rw [e1, e2, e3] at h
    exact h
  refine ⟨hpath, ?_⟩
  have hsg : ((0 : Int), (0 : Int)) ≠ ((1000000001 : Int), (0 : Int)) := by
    decide
  have hoks : okCell ⟨1000000002, 1, []⟩ ((0 : Int), (0 : Int)) := by
    constructor
    · simp [in_bounds]
    · simp
  have hokg : okCell ⟨1000000002, 1, []⟩ ((1000000001 : Int), (0 : Int)) := by
    constructor
    · simp only [in_bounds, decide_eq_true_eq]
      norm_num
    · simp
  rw [astar, if_neg hsg, if_neg (by decide), if_neg (by decide),
    if_neg (by decide)]
  by_contra hne
  obtain ⟨hp, hb⟩ := astarLoop_sound ⟨1000000002, 1, []⟩
    ((0 : Int), (0 : Int)) ((1000000001 : Int), (0 : Int)) _ _
    (init_inv _ _ _ hoks) hne
  have hman := manhattan_le_steps ⟨1000000002, 1, []⟩ _
    ((0 : Int), (0 : Int)) ((1000000001 : Int), (0 : Int)) hp
  have hm : manhattan ((0 : Int), (0 : Int)) ((1000000001 : Int), (0 : Int)) =
      1000000001 := by
    norm_num [manhattan]
  omega
